import Mathlib

/-
Shallow embedding of the client-side transaction commit engine of RAMCloud
(`src/ClientTransactionTask.cc`).

The task is a state machine `INIT → PREPARE → DECISION → DONE` driven by
repeated `performTask` calls from a single-threaded poll loop.  The commit
cache (a `std::multimap` ordered by `CacheKey`) is modelled as a list of
`(CacheKey, CacheEntry)` pairs in iteration (key) order, with the iterator
`nextCacheEntry` modelled as a position index.  External collaborators
(object-location oracle, lease service, RPC tracker, transport) are modelled
through an `Env` record of inputs plus instrumentation fields on the task
(`rpcFinishedCount` counts `rpcTracker.rpcFinished` calls, `flushedTables`
logs `objectFinder.flush` calls).  The transport runs between `performTask`
calls; its callbacks (`handleTransportError`, response delivery together with
`checkStatus`) are separate labelled steps of the transition system.
Machine-integer overflow is kept where it matters: `rpcId` arithmetic is
modulo `2 ^ 64` (`uint64_t`) and `participantCount` is modulo `2 ^ 32`
(`uint32_t`).
-/

namespace ClientTransactionTask

/-- Bound of `uint64_t` values. -/
def U64 : Nat := 2 ^ 64

/-- Bound of `uint32_t` values. -/
def U32 : Nat := 2 ^ 32

/-- Table identifiers (`uint64_t`). -/
abbrev TableId := Nat

/-- Key hashes (`KeyHash`, a `uint64_t`). -/
abbrev KeyHash := Nat

/-- Service locators of transport sessions (`getServiceLocator()` strings). -/
abbrev Locator := Nat

/-- The pair `(tableId, keyHash)` keying the commit cache. -/
structure CacheKey where
  tableId : TableId
  keyHash : KeyHash
deriving DecidableEq, Repr

/-- Type of a staged transaction operation (`CacheEntry::Type`). -/
inductive OpType
  | READ
  | WRITE
  | REMOVE
deriving DecidableEq, Repr

/-- Per-entry phase progress (`CacheEntry::State`). -/
inductive EntryState
  | PENDING
  | PREPARE
  | DECIDE
deriving DecidableEq, Repr

/-- The transaction decision (`WireFormat::TxDecision`). -/
inductive TxDecision
  | INVALID
  | COMMIT
  | ABORT
deriving DecidableEq, Repr

/-- The task state machine states. -/
inductive TaskState
  | INIT
  | PREPARE
  | DECISION
  | DONE
deriving DecidableEq, Repr

/-- Server status codes as seen by the task: `STATUS_OK`,
`STATUS_UNKNOWN_TABLET`, or any other status (fatal). -/
inductive Status
  | OK
  | UNKNOWN_TABLET
  | other (code : Nat)
deriving DecidableEq, Repr

/-- One staged operation.  `objectBuf` and `rejectRules` carry no
claim-relevant information and are omitted; `rpcId` is assigned at `INIT`. -/
structure CacheEntry where
  type : OpType
  rpcId : Nat
  state : EntryState
deriving DecidableEq, Repr

/-- One record of the participant list buffer (`WireFormat::TxParticipant`). -/
structure TxParticipant where
  tableId : TableId
  keyHash : KeyHash
  rpcId : Nat
deriving DecidableEq, Repr

/-- Observable condition of an in-flight RPC.  `notReady` is an RPC whose
`isReady()` is false; `failed` is transport-level `RpcState::FAILED` (the
transport has already run `handleTransportError`); `response st vote` is a
ready RPC whose response header carries `st` (the `vote` field is read only
for prepare RPCs with `st = OK`, decision responses carry `INVALID` here). -/
inductive RpcOutcome
  | notReady
  | failed
  | response (st : Status) (vote : TxDecision)
deriving DecidableEq, Repr

/-- An in-flight prepare or decision RPC: the service locator of the session
it was opened on, the `ops` array of cache positions appended to it (in
append order, so `ops.length` is `reqHdr->opCount` resp.
`reqHdr->participantCount`), and its current outcome. -/
structure Rpc where
  sessionLoc : Locator
  ops : List Nat
  outcome : RpcOutcome
deriving DecidableEq, Repr

/-- Inputs provided by the external collaborators during one call:
`lookup` is `objectFinder.lookup`, the two bounds are the
`MAX_OBJECTS_PER_RPC` constants of `PrepareRpc` and `DecisionRpc`, and
`newTxId` is the block start returned by `rpcTracker.newRpcIdBlock`. -/
structure Env where
  lookup : TableId → KeyHash → Locator
  maxObjectsPerPrepareRpc : Nat
  maxObjectsPerDecisionRpc : Nat
  newTxId : Nat

/-- The `ClientTransactionTask` state, plus instrumentation of calls made to
the RPC tracker (`rpcFinishedCount`) and the object finder
(`flushedTables`). -/
structure Task where
  participantCount : Nat
  participantList : List TxParticipant
  state : TaskState
  status : Status
  decision : TxDecision
  txId : Nat
  prepareRpcs : List Rpc
  decisionRpcs : List Rpc
  commitCache : List (CacheKey × CacheEntry)
  nextCacheEntry : Nat
  rpcFinishedCount : Nat
  flushedTables : List TableId
deriving DecidableEq, Repr

/-- Handling of one ready prepare RPC inside `processPrepareRpcs`: given the
RPC's outcome and the current `decision`, returns the updated `decision` and
the status thrown by `ClientException::throwException` (if any).
`FAILED` and `STATUS_UNKNOWN_TABLET` need no action here (retry was already
arranged by the transport callbacks); `STATUS_OK` folds the vote into
`decision`; anything else is thrown. -/
def prepareRpcEffect (o : RpcOutcome) (dec : TxDecision) :
    TxDecision × Option Status :=
  match o with
  | .notReady => (dec, none)
  | .failed => (dec, none)
  | .response st vote =>
    match st with
    | .OK => (if vote ≠ .COMMIT then .ABORT else dec, none)
    | .UNKNOWN_TABLET => (dec, none)
    | .other c => (dec, some (.other c))

/-- The list traversal of `processPrepareRpcs`.  The C++ loop is
`for (; it != end; it++)` with `it = prepareRpcs.erase(it)` after handling a
ready RPC; since `erase` returns the iterator following the erased element
and the loop header increments once more, the element immediately after an
erased one is skipped in this call.  When the erased element was the last
one, `erase` returns `end()` and the loop terminates.  A thrown status stops
the traversal with the throwing RPC (and everything after it) still in the
list. -/
def processPrepareLoop : List Rpc → TxDecision →
    List Rpc × TxDecision × Option Status
  | [], dec => ([], dec, none)
  | r :: rest, dec =>
    if r.outcome = .notReady then
      let res := processPrepareLoop rest dec
      (r :: res.1, res.2.1, res.2.2)
    else
      match prepareRpcEffect r.outcome dec with
      | (dec', some st) => (r :: rest, dec', some st)
      | (dec', none) =>
        match rest with
        | [] => ([], dec', none)
        | r2 :: rest2 =>
          let res := processPrepareLoop rest2 dec'
          (r2 :: res.1, res.2.1, res.2.2)

/-- Handling of one ready decision RPC inside `processDecisionRpcs`:
`FAILED`, `STATUS_OK` and `STATUS_UNKNOWN_TABLET` need no action; anything
else is thrown. -/
def decisionRpcEffect (o : RpcOutcome) : Option Status :=
  match o with
  | .notReady => none
  | .failed => none
  | .response st _ =>
    match st with
    | .OK => none
    | .UNKNOWN_TABLET => none
    | .other c => some (.other c)

/-- The list traversal of `processDecisionRpcs`, with the same
erase-then-increment iteration as `processPrepareLoop`. -/
def processDecisionLoop : List Rpc → List Rpc × Option Status
  | [] => ([], none)
  | r :: rest =>
    if r.outcome = .notReady then
      let res := processDecisionLoop rest
      (r :: res.1, res.2)
    else
      match decisionRpcEffect r.outcome with
      | some st => (r :: rest, some st)
      | none =>
        match rest with
        | [] => ([], none)
        | r2 :: rest2 =>
          let res := processDecisionLoop rest2
          (r2 :: res.1, res.2)

/-- `ClientTransactionTask::processPrepareRpcs`.  On a throw, the error value
carries the task as left by the partial traversal together with the thrown
status. -/
def processPrepareRpcs (t : Task) : Except (Task × Status) Task :=
  match processPrepareLoop t.prepareRpcs t.decision with
  | (rpcs, dec, none) => .ok { t with prepareRpcs := rpcs, decision := dec }
  | (rpcs, dec, some st) =>
      .error ({ t with prepareRpcs := rpcs, decision := dec }, st)

/-- `ClientTransactionTask::processDecisionRpcs`. -/
def processDecisionRpcs (t : Task) : Except (Task × Status) Task :=
  match processDecisionLoop t.decisionRpcs with
  | (rpcs, none) => .ok { t with decisionRpcs := rpcs }
  | (rpcs, some st) => .error ({ t with decisionRpcs := rpcs }, st)

/-- The scan of `sendPrepareRpc` over the cache suffix starting at the
cursor.  Arguments: the suffix of `commitCache` from the cursor on, the
absolute position `i` of its head, and the RPC under construction (`none`
before the first eligible entry, otherwise the locator of `rpcSession` and
the `ops` recorded so far).  Entries with `state = PREPARE` are skipped; the
first eligible entry opens the RPC on its looked-up session; an eligible
entry is appended (its `state` advances to `PREPARE`) iff its looked-up
locator matches `rpcSession` and `opCount` is below the bound, else the scan
breaks with the cursor parked at that entry.  Returns the updated suffix,
the final cursor position, and the RPC under construction (if one). -/
def sendPrepareScan (env : Env) :
    List (CacheKey × CacheEntry) → Nat → Option (Locator × List Nat) →
    List (CacheKey × CacheEntry) × Nat × Option (Locator × List Nat)
  | [], i, cur => ([], i, cur)
  | ke :: rest, i, cur =>
    if ke.2.state = .PREPARE then
      let res := sendPrepareScan env rest (i + 1) cur
      (ke :: res.1, res.2.1, res.2.2)
    else
      let locOps :=
        cur.getD (env.lookup ke.1.tableId ke.1.keyHash, ([] : List Nat))
      let sess := env.lookup ke.1.tableId ke.1.keyHash
      if sess = locOps.1 ∧ locOps.2.length < env.maxObjectsPerPrepareRpc then
        let res := sendPrepareScan env rest (i + 1)
          (some (locOps.1, locOps.2 ++ [i]))
        ((ke.1, { ke.2 with state := .PREPARE }) :: res.1, res.2.1, res.2.2)
      else (ke :: rest, i, some locOps)

/-- `ClientTransactionTask::sendPrepareRpc`: scan forward from
`nextCacheEntry`, building at most one new prepare RPC, which is sent (added
to `prepareRpcs` in flight) if one was opened. -/
def sendPrepareRpc (env : Env) (t : Task) : Task :=
  let res := sendPrepareScan env (t.commitCache.drop t.nextCacheEntry)
    t.nextCacheEntry none
  let cache := t.commitCache.take t.nextCacheEntry ++ res.1
  match res.2.2 with
  | none => { t with commitCache := cache, nextCacheEntry := res.2.1 }
  | some locOps =>
      { t with commitCache := cache, nextCacheEntry := res.2.1,
               prepareRpcs := t.prepareRpcs ++
                 [{ sessionLoc := locOps.1, ops := locOps.2,
                    outcome := .notReady }] }

/-- The scan of `sendDecisionRpc`, identical in structure to
`sendPrepareScan` except that it skips entries with `state = DECIDE`,
advances appended entries to `DECIDE`, and uses `DecisionRpc`'s bound. -/
def sendDecisionScan (env : Env) :
    List (CacheKey × CacheEntry) → Nat → Option (Locator × List Nat) →
    List (CacheKey × CacheEntry) × Nat × Option (Locator × List Nat)
  | [], i, cur => ([], i, cur)
  | ke :: rest, i, cur =>
    if ke.2.state = .DECIDE then
      let res := sendDecisionScan env rest (i + 1) cur
      (ke :: res.1, res.2.1, res.2.2)
    else
      let locOps :=
        cur.getD (env.lookup ke.1.tableId ke.1.keyHash, ([] : List Nat))
      let sess := env.lookup ke.1.tableId ke.1.keyHash
      if sess = locOps.1 ∧ locOps.2.length < env.maxObjectsPerDecisionRpc then
        let res := sendDecisionScan env rest (i + 1)
          (some (locOps.1, locOps.2 ++ [i]))
        ((ke.1, { ke.2 with state := .DECIDE }) :: res.1, res.2.1, res.2.2)
      else (ke :: rest, i, some locOps)

/-- `ClientTransactionTask::sendDecisionRpc`. -/
def sendDecisionRpc (env : Env) (t : Task) : Task :=
  let res := sendDecisionScan env (t.commitCache.drop t.nextCacheEntry)
    t.nextCacheEntry none
  let cache := t.commitCache.take t.nextCacheEntry ++ res.1
  match res.2.2 with
  | none => { t with commitCache := cache, nextCacheEntry := res.2.1 }
  | some locOps =>
      { t with commitCache := cache, nextCacheEntry := res.2.1,
               decisionRpcs := t.decisionRpcs ++
                 [{ sessionLoc := locOps.1, ops := locOps.2,
                    outcome := .notReady }] }

/-- The loop of `initTask`: walk the cache from the beginning, assigning
`rpcId = txId + i` (`uint64_t` arithmetic) to entry `i`, appending the
matching `TxParticipant` record, and incrementing `participantCount`
(`uint32_t`).  Returns the updated cache, the appended participant records,
and the final `participantCount`. -/
def initTaskLoop (txId : Nat) :
    Nat → Nat → List (CacheKey × CacheEntry) →
    List (CacheKey × CacheEntry) × List TxParticipant × Nat
  | _, pc, [] => ([], [], pc)
  | i, pc, ke :: rest =>
    let rid := (txId + i) % U64
    let res := initTaskLoop txId (i + 1) ((pc + 1) % U32) rest
    ((ke.1, { ke.2 with rpcId := rid }) :: res.1,
     { tableId := ke.1.tableId, keyHash := ke.1.keyHash,
       rpcId := rid } :: res.2.1,
     res.2.2)

/-- `ClientTransactionTask::initTask`: fetch the lease (opaque, not
modelled), obtain an `rpcId` block of size `|commitCache|` starting at
`env.newTxId`, and build the participant list.  The loop leaves
`nextCacheEntry` at the end of the cache. -/
def initTask (env : Env) (t : Task) : Task :=
  let txId := env.newTxId
  let res := initTaskLoop txId 0 t.participantCount t.commitCache
  { t with txId := txId,
           commitCache := res.1,
           participantList := t.participantList ++ res.2.1,
           participantCount := res.2.2,
           nextCacheEntry := t.commitCache.length }

/-- The `INIT` block of `performTask`: build the participant list, reset the
cursor to the cache head, and enter `PREPARE`. -/
def initPhase (env : Env) (t : Task) : Task :=
  if t.state = .INIT then
    let t1 := initTask env t
    { t1 with nextCacheEntry := 0, state := .PREPARE }
  else t

/-- The transition check at the end of the `PREPARE` block of `performTask`:
when the prepare pipeline is empty and the cursor reached the end, rewind
the cursor, finalize `decision` to `COMMIT` unless it is already `ABORT`,
and enter `DECISION`. -/
def prepareTransition (t : Task) : Task :=
  if t.prepareRpcs = [] ∧ t.nextCacheEntry = t.commitCache.length then
    { t with nextCacheEntry := 0,
             decision := if t.decision ≠ .ABORT then .COMMIT else t.decision,
             state := .DECISION }
  else t

/-- The `PREPARE` block of `performTask`: `processPrepareRpcs`, then
`sendPrepareRpc`, then the transition check. -/
def preparePhase (env : Env) (t : Task) : Except (Task × Status) Task :=
  if t.state = .PREPARE then
    match processPrepareRpcs t with
    | .error e => .error e
    | .ok t1 => .ok (prepareTransition (sendPrepareRpc env t1))
  else .ok t

/-- The transition check at the end of the `DECISION` block of
`performTask`: when the decision pipeline is empty and the cursor reached
the end, call `rpcTracker.rpcFinished(txId)` and enter `DONE`. -/
def decisionTransition (t : Task) : Task :=
  if t.decisionRpcs = [] ∧ t.nextCacheEntry = t.commitCache.length then
    { t with rpcFinishedCount := t.rpcFinishedCount + 1, state := .DONE }
  else t

/-- The `DECISION` block of `performTask`. -/
def decisionPhase (env : Env) (t : Task) : Except (Task × Status) Task :=
  if t.state = .DECISION then
    match processDecisionRpcs t with
    | .error e => .error e
    | .ok t1 => .ok (decisionTransition (sendDecisionRpc env t1))
  else .ok t

/-- The `catch` handler of `performTask`: clear both pipelines, record the
thrown status, call `rpcTracker.rpcFinished(txId)`, and stop. -/
def fatalError (t : Task) (st : Status) : Task :=
  { t with prepareRpcs := [], decisionRpcs := [], status := st,
           rpcFinishedCount := t.rpcFinishedCount + 1, state := .DONE }

/-- `ClientTransactionTask::performTask`: the three phase blocks in
sequence, wrapped in the `try`/`catch` that funnels any thrown
`ClientException` to the fatal stop. -/
def performTask (env : Env) (t : Task) : Task :=
  match preparePhase env (initPhase env t) with
  | .error es => fatalError es.1 es.2
  | .ok t1 =>
    match decisionPhase env t1 with
    | .error es => fatalError es.1 es.2
    | .ok t2 => t2

/-- The loop of `PrepareRpc::retryRequest` and `DecisionRpc::retryRequest`:
for each op of the RPC, flush the table's routing entry
(`objectFinder.flush`) and reset the entry's `state` to `PENDING`.  Returns
the updated cache and flush log. -/
def retryLoop : List Nat → List (CacheKey × CacheEntry) → List TableId →
    List (CacheKey × CacheEntry) × List TableId
  | [], cache, fl => (cache, fl)
  | i :: rest, cache, fl =>
    match cache[i]? with
    | none => retryLoop rest cache fl
    | some ke =>
        retryLoop rest (cache.set i (ke.1, { ke.2 with state := .PENDING }))
          (fl ++ [ke.1.tableId])

/-- `retryRequest` of an RPC: reset every participant of the RPC to
`PENDING`, flush their tables' routing entries, and rewind the task's
cursor to the cache head. -/
def retryRequest (r : Rpc) (t : Task) : Task :=
  let res := retryLoop r.ops t.commitCache t.flushedTables
  { t with commitCache := res.1, flushedTables := res.2, nextCacheEntry := 0 }

/-- Transport-level failure of the `i`-th in-flight prepare RPC:
`PrepareRpc::handleTransportError` flushes the broken session (no task-state
effect beyond the retry) and runs `retryRequest`; the RPC then reads as
`FAILED`. -/
def prepTransportFail (i : Nat) (t : Task) : Task :=
  match t.prepareRpcs[i]? with
  | some r =>
    if r.outcome = .notReady then
      let t1 := retryRequest r t
      { t1 with prepareRpcs := t1.prepareRpcs.set i { r with outcome := .failed } }
    else t
  | none => t

/-- Delivery of a server response to the `i`-th in-flight prepare RPC.  On
`STATUS_UNKNOWN_TABLET`, `PrepareRpc::checkStatus` runs `retryRequest`; the
RPC then reads as ready with the given status and vote. -/
def prepDeliver (i : Nat) (st : Status) (vote : TxDecision) (t : Task) : Task :=
  match t.prepareRpcs[i]? with
  | some r =>
    if r.outcome = .notReady then
      let t1 := if st = .UNKNOWN_TABLET then retryRequest r t else t
      { t1 with prepareRpcs :=
          t1.prepareRpcs.set i { r with outcome := .response st vote } }
    else t
  | none => t

/-- Transport-level failure of the `i`-th in-flight decision RPC
(`DecisionRpc::handleTransportError`). -/
def decTransportFail (i : Nat) (t : Task) : Task :=
  match t.decisionRpcs[i]? with
  | some r =>
    if r.outcome = .notReady then
      let t1 := retryRequest r t
      { t1 with decisionRpcs := t1.decisionRpcs.set i { r with outcome := .failed } }
    else t
  | none => t

/-- Delivery of a server response to the `i`-th in-flight decision RPC (its
response carries only a status; `DecisionRpc::checkStatus` runs
`retryRequest` on `STATUS_UNKNOWN_TABLET`). -/
def decDeliver (i : Nat) (st : Status) (t : Task) : Task :=
  match t.decisionRpcs[i]? with
  | some r =>
    if r.outcome = .notReady then
      let t1 := if st = .UNKNOWN_TABLET then retryRequest r t else t
      { t1 with decisionRpcs :=
          t1.decisionRpcs.set i { r with outcome := .response st .INVALID } }
    else t
  | none => t

/-- Labels of the transition system: one `performTask` call from the poll
loop, or one transport callback on an in-flight RPC. -/
inductive StepLabel
  | perform (env : Env)
  | prepFail (i : Nat)
  | prepResp (i : Nat) (st : Status) (vote : TxDecision)
  | decFail (i : Nat)
  | decResp (i : Nat) (st : Status)

/-- One step of the transition system. -/
def step : StepLabel → Task → Task
  | .perform env, t => performTask env t
  | .prepFail i, t => prepTransportFail i t
  | .prepResp i st v, t => prepDeliver i st v t
  | .decFail i, t => decTransportFail i t
  | .decResp i st, t => decDeliver i st t

/-- A freshly staged cache entry (the `CacheEntry` default constructor plus
the type chosen at staging time): state `PENDING`, no `rpcId` yet. -/
def stagedEntry (ty : OpType) : CacheEntry :=
  { type := ty, rpcId := 0, state := .PENDING }

/-- Key order check used to model the `std::multimap` iteration order. -/
def cacheKeyLe (a b : CacheKey) : Bool :=
  Nat.blt a.tableId b.tableId ||
    (a.tableId == b.tableId && Nat.ble a.keyHash b.keyHash)

/-- The staged cache list is in `CacheKey` order. -/
def cacheSorted : List (CacheKey × OpType) → Bool
  | [] => true
  | [_] => true
  | a :: b :: rest => cacheKeyLe a.1 b.1 && cacheSorted (b :: rest)

/-- A task as constructed by `ClientTransactionTask::ClientTransactionTask`
and then staged with the given operations: state `INIT`, status `STATUS_OK`,
decision `INVALID`, empty pipelines and participant list. -/
def mkTask (cache : List (CacheKey × OpType)) : Task :=
  { participantCount := 0, participantList := [], state := .INIT,
    status := .OK, decision := .INVALID, txId := 0, prepareRpcs := [],
    decisionRpcs := [],
    commitCache := cache.map (fun kt => (kt.1, stagedEntry kt.2)),
    nextCacheEntry := 0, rpcFinishedCount := 0, flushedTables := [] }

/-- The reachable states of a transaction task: a staged task (its cache in
key order), closed under steps. -/
inductive Reachable : Task → Prop
  | init (cache : List (CacheKey × OpType)) (hs : cacheSorted cache = true) :
      Reachable (mkTask cache)
  | step (l : StepLabel) {t : Task} (ht : Reachable t) : Reachable (step l t)

/-- Rank of an entry state along `PENDING → PREPARE → DECIDE`. -/
def entryRank : EntryState → Nat
  | .PENDING => 0
  | .PREPARE => 1
  | .DECIDE => 2

/-- The `state` field of the cache entry at position `j`, if any. -/
def entryStateAt (t : Task) (j : Nat) : Option EntryState :=
  (t.commitCache[j]?).map (fun ke => ke.2.state)

/-- Handling one prepare response never moves `decision` anywhere but
`ABORT`. -/
theorem prepareRpcEffect_decision (o : RpcOutcome) (dec : TxDecision) :
    (prepareRpcEffect o dec).1 = dec ∨ (prepareRpcEffect o dec).1 = .ABORT := by
  cases o with
  | notReady => exact .inl rfl
  | failed => exact .inl rfl
  | response st vote =>
    cases st with
    | OK =>
      by_cases h : vote = .COMMIT
      · exact .inl (by simp [prepareRpcEffect, h])
      · exact .inr (by simp [prepareRpcEffect, h])
    | UNKNOWN_TABLET => exact .inl rfl
    | other c => exact .inl rfl

/-- Statuses thrown while handling a prepare response are the fatal ones
(neither `OK` nor `UNKNOWN_TABLET`). -/
theorem prepareRpcEffect_throw (o : RpcOutcome) (dec : TxDecision) (st : Status)
    (h : (prepareRpcEffect o dec).2 = some st) : ∃ c, st = .other c := by
  cases o with
  | notReady => exact absurd h (by simp [prepareRpcEffect])
  | failed => exact absurd h (by simp [prepareRpcEffect])
  | response st' vote =>
    cases st' with
    | OK =>
      exact absurd h (by by_cases hv : vote = .COMMIT <;> simp [prepareRpcEffect, hv])
    | UNKNOWN_TABLET => exact absurd h (by simp [prepareRpcEffect])
    | other c => exact ⟨c, by simpa [prepareRpcEffect] using h.symm⟩

/-- Statuses thrown while handling a decision response are the fatal ones. -/
theorem decisionRpcEffect_throw (o : RpcOutcome) (st : Status)
    (h : decisionRpcEffect o = some st) : ∃ c, st = .other c := by
  cases o with
  | notReady => exact absurd h (by simp [decisionRpcEffect])
  | failed => exact absurd h (by simp [decisionRpcEffect])
  | response st' vote =>
    cases st' with
    | OK => exact absurd h (by simp [decisionRpcEffect])
    | UNKNOWN_TABLET => exact absurd h (by simp [decisionRpcEffect])
    | other c => exact ⟨c, by simpa [decisionRpcEffect] using h.symm⟩

/-- Reduction of the prepare traversal on a not-ready head. -/
theorem processPrepareLoop_cons_notReady (r : Rpc) (rest : List Rpc)
    (dec : TxDecision) (hr : r.outcome = .notReady) :
    processPrepareLoop (r :: rest) dec =
      (r :: (processPrepareLoop rest dec).1, (processPrepareLoop rest dec).2.1,
        (processPrepareLoop rest dec).2.2) := by
  simp [processPrepareLoop, hr]

/-- Reduction of the prepare traversal on a ready, throwing head. -/
theorem processPrepareLoop_cons_throw (r : Rpc) (rest : List Rpc)
    (dec dec' : TxDecision) (st : Status) (hr : ¬r.outcome = .notReady)
    (heff : prepareRpcEffect r.outcome dec = (dec', some st)) :
    processPrepareLoop (r :: rest) dec = (r :: rest, dec', some st) := by
  simp [processPrepareLoop, hr, heff]

/-- Reduction of the prepare traversal erasing the last element. -/
theorem processPrepareLoop_single_erase (r : Rpc) (dec dec' : TxDecision)
    (hr : ¬r.outcome = .notReady)
    (heff : prepareRpcEffect r.outcome dec = (dec', none)) :
    processPrepareLoop [r] dec = ([], dec', none) := by
  simp [processPrepareLoop, hr, heff]

/-- Reduction of the prepare traversal erasing the head and skipping the
following element. -/
theorem processPrepareLoop_cons_erase (r r2 : Rpc) (rest2 : List Rpc)
    (dec dec' : TxDecision) (hr : ¬r.outcome = .notReady)
    (heff : prepareRpcEffect r.outcome dec = (dec', none)) :
    processPrepareLoop (r :: r2 :: rest2) dec =
      (r2 :: (processPrepareLoop rest2 dec').1,
        (processPrepareLoop rest2 dec').2.1,
        (processPrepareLoop rest2 dec').2.2) := by
  simp [processPrepareLoop, hr, heff]

/-- Reduction of the decision traversal on a not-ready head. -/
theorem processDecisionLoop_cons_notReady (r : Rpc) (rest : List Rpc)
    (hr : r.outcome = .notReady) :
    processDecisionLoop (r :: rest) =
      (r :: (processDecisionLoop rest).1, (processDecisionLoop rest).2) := by
  rcases rest with _ | ⟨r2, rest2⟩ <;> simp [processDecisionLoop, hr]

/-- Reduction of the decision traversal on a ready, throwing head. -/
theorem processDecisionLoop_cons_throw (r : Rpc) (rest : List Rpc) (st : Status)
    (hr : ¬r.outcome = .notReady) (heff : decisionRpcEffect r.outcome = some st) :
    processDecisionLoop (r :: rest) = (r :: rest, some st) := by
  rcases rest with _ | ⟨r2, rest2⟩ <;> simp [processDecisionLoop, hr, heff]

/-- Reduction of the decision traversal erasing the last element. -/
theorem processDecisionLoop_single_erase (r : Rpc) (hr : ¬r.outcome = .notReady)
    (heff : decisionRpcEffect r.outcome = none) :
    processDecisionLoop [r] = ([], none) := by
  simp [processDecisionLoop, hr, heff]

/-- Reduction of the decision traversal erasing the head and skipping the
following element. -/
theorem processDecisionLoop_cons_erase (r r2 : Rpc) (rest2 : List Rpc)
    (hr : ¬r.outcome = .notReady) (heff : decisionRpcEffect r.outcome = none) :
    processDecisionLoop (r :: r2 :: rest2) =
      (r2 :: (processDecisionLoop rest2).1, (processDecisionLoop rest2).2) := by
  simp [processDecisionLoop, hr, heff]

/-- The prepare traversal only ever moves `decision` towards `ABORT`. -/
theorem processPrepareLoop_decision (l : List Rpc) (dec : TxDecision) :
    (processPrepareLoop l dec).2.1 = dec ∨ (processPrepareLoop l dec).2.1 = .ABORT := by
  induction l, dec using processPrepareLoop.induct with
  | case1 dec => exact .inl rfl
  | case2 r rest dec hr ih =>
    rw [processPrepareLoop_cons_notReady r rest dec hr]
    exact ih
  | case3 r rest dec hr dec' st heff =>
    rw [processPrepareLoop_cons_throw r rest dec dec' st hr heff]
    have h1 := prepareRpcEffect_decision r.outcome dec
    rw [heff] at h1
    exact h1
  | case4 r dec hr dec' heff =>
    rw [processPrepareLoop_single_erase r dec dec' hr heff]
    have h1 := prepareRpcEffect_decision r.outcome dec
    rw [heff] at h1
    exact h1
  | case5 r dec hr dec' heff r2 rest2 ih =>
    rw [processPrepareLoop_cons_erase r r2 rest2 dec dec' hr heff]
    have h1 := prepareRpcEffect_decision r.outcome dec
    rw [heff] at h1
    rcases ih with ih | ih
    · rw [ih]
      rcases h1 with h1 | h1
      · exact .inl h1
      · exact .inr h1
    · exact .inr ih

/-- A status thrown by the prepare traversal is a fatal server status. -/
theorem processPrepareLoop_throw (l : List Rpc) (dec : TxDecision) (s : Status)
    (h : (processPrepareLoop l dec).2.2 = some s) : ∃ c, s = .other c := by
  induction l, dec using processPrepareLoop.induct with
  | case1 dec => simp [processPrepareLoop] at h
  | case2 r rest dec hr ih =>
    rw [processPrepareLoop_cons_notReady r rest dec hr] at h
    exact ih h
  | case3 r rest dec hr dec' st heff =>
    rw [processPrepareLoop_cons_throw r rest dec dec' st hr heff] at h
    have hst : st = s := by simpa using h
    subst hst
    exact prepareRpcEffect_throw r.outcome dec st (by rw [heff])
  | case4 r dec hr dec' heff =>
    rw [processPrepareLoop_single_erase r dec dec' hr heff] at h
    simp at h
  | case5 r dec hr dec' heff r2 rest2 ih =>
    rw [processPrepareLoop_cons_erase r r2 rest2 dec dec' hr heff] at h
    exact ih h

/-- A status thrown by the decision traversal is a fatal server status. -/
theorem processDecisionLoop_throw (l : List Rpc) (s : Status)
    (h : (processDecisionLoop l).2 = some s) : ∃ c, s = .other c := by
  induction l using processDecisionLoop.induct with
  | case1 => simp [processDecisionLoop] at h
  | case2 r rest hr ih =>
    rw [processDecisionLoop_cons_notReady r rest hr] at h
    exact ih h
  | case3 r rest hr st heff =>
    rw [processDecisionLoop_cons_throw r rest st hr heff] at h
    have hst : st = s := by simpa using h
    subst hst
    exact decisionRpcEffect_throw r.outcome st heff
  | case4 r hr heff =>
    rw [processDecisionLoop_single_erase r hr heff] at h
    simp at h
  | case5 r hr heff r2 rest2 ih =>
    rw [processDecisionLoop_cons_erase r r2 rest2 hr heff] at h
    exact ih h

/-- The prepare traversal leaves a sublist of the pending list in place. -/
theorem processPrepareLoop_sublist (l : List Rpc) (dec : TxDecision) :
    (processPrepareLoop l dec).1.Sublist l := by
  induction l, dec using processPrepareLoop.induct with
  | case1 dec => exact .refl []
  | case2 r rest dec hr ih =>
    rw [processPrepareLoop_cons_notReady r rest dec hr]
    exact ih.cons₂ r
  | case3 r rest dec hr dec' st heff =>
    rw [processPrepareLoop_cons_throw r rest dec dec' st hr heff]
  | case4 r dec hr dec' heff =>
    rw [processPrepareLoop_single_erase r dec dec' hr heff]
    exact List.nil_sublist [r]
  | case5 r dec hr dec' heff r2 rest2 ih =>
    rw [processPrepareLoop_cons_erase r r2 rest2 dec dec' hr heff]
    exact (ih.cons₂ r2).cons r

/-- Every not-yet-ready RPC survives the prepare traversal. -/
theorem processPrepareLoop_notReady_sublist (l : List Rpc) (dec : TxDecision) :
    (l.filter (fun r => decide (r.outcome = RpcOutcome.notReady))).Sublist
      (processPrepareLoop l dec).1 := by
  induction l, dec using processPrepareLoop.induct with
  | case1 dec => exact .refl []
  | case2 r rest dec hr ih =>
    rw [processPrepareLoop_cons_notReady r rest dec hr, List.filter_cons,
      if_pos (by simpa using hr)]
    exact ih.cons₂ r
  | case3 r rest dec hr dec' st heff =>
    rw [processPrepareLoop_cons_throw r rest dec dec' st hr heff, List.filter_cons,
      if_neg (by simpa using hr)]
    exact (List.filter_sublist rest).cons r
  | case4 r dec hr dec' heff =>
    rw [processPrepareLoop_single_erase r dec dec' hr heff, List.filter_cons,
      if_neg (by simpa using hr)]
    exact .refl []
  | case5 r dec hr dec' heff r2 rest2 ih =>
    rw [processPrepareLoop_cons_erase r r2 rest2 dec dec' hr heff, List.filter_cons,
      if_neg (by simpa using hr), List.filter_cons]
    by_cases h2 : r2.outcome = RpcOutcome.notReady
    · rw [if_pos (by simpa using h2)]
      exact ih.cons₂ r2
    · rw [if_neg (by simpa using h2)]
      exact ih.cons r2

/-- The decision traversal leaves a sublist of the pending list in place. -/
theorem processDecisionLoop_sublist (l : List Rpc) :
    (processDecisionLoop l).1.Sublist l := by
  induction l using processDecisionLoop.induct with
  | case1 => exact .refl []
  | case2 r rest hr ih =>
    rw [processDecisionLoop_cons_notReady r rest hr]
    exact ih.cons₂ r
  | case3 r rest hr st heff =>
    rw [processDecisionLoop_cons_throw r rest st hr heff]
  | case4 r hr heff =>
    rw [processDecisionLoop_single_erase r hr heff]
    exact List.nil_sublist [r]
  | case5 r hr heff r2 rest2 ih =>
    rw [processDecisionLoop_cons_erase r r2 rest2 hr heff]
    exact (ih.cons₂ r2).cons r

/-- Every not-yet-ready RPC survives the decision traversal. -/
theorem processDecisionLoop_notReady_sublist (l : List Rpc) :
    (l.filter (fun r => decide (r.outcome = RpcOutcome.notReady))).Sublist
      (processDecisionLoop l).1 := by
  induction l using processDecisionLoop.induct with
  | case1 => exact .refl []
  | case2 r rest hr ih =>
    rw [processDecisionLoop_cons_notReady r rest hr, List.filter_cons,
      if_pos (by simpa using hr)]
    exact ih.cons₂ r
  | case3 r rest hr st heff =>
    rw [processDecisionLoop_cons_throw r rest st hr heff, List.filter_cons,
      if_neg (by simpa using hr)]
    exact (List.filter_sublist rest).cons r
  | case4 r hr heff =>
    rw [processDecisionLoop_single_erase r hr heff, List.filter_cons,
      if_neg (by simpa using hr)]
    exact .refl []
  | case5 r hr heff r2 rest2 ih =>
    rw [processDecisionLoop_cons_erase r r2 rest2 hr heff, List.filter_cons,
      if_neg (by simpa using hr), List.filter_cons]
    by_cases h2 : r2.outcome = RpcOutcome.notReady
    · rw [if_pos (by simpa using h2)]
      exact ih.cons₂ r2
    · rw [if_neg (by simpa using h2)]
      exact ih.cons r2

/-- Field bookkeeping of a successful `processPrepareRpcs` call: only the
pending list shrinks and `decision` may move to `ABORT`. -/
theorem processPrepareRpcs_ok (t u : Task) (h : processPrepareRpcs t = .ok u) :
    u.state = t.state ∧ u.status = t.status ∧ u.commitCache = t.commitCache ∧
    u.nextCacheEntry = t.nextCacheEntry ∧
    u.rpcFinishedCount = t.rpcFinishedCount ∧ u.decisionRpcs = t.decisionRpcs ∧
    u.flushedTables = t.flushedTables ∧
    u.participantCount = t.participantCount ∧
    u.participantList = t.participantList ∧ u.txId = t.txId ∧
    (u.decision = t.decision ∨ u.decision = .ABORT) := by
  have hd := processPrepareLoop_decision t.prepareRpcs t.decision
  unfold processPrepareRpcs at h
  split at h
  next rpcs dec heq =>
    cases h
    rw [heq] at hd
    exact ⟨rfl, rfl, rfl, rfl, rfl, rfl, rfl, rfl, rfl, rfl, hd⟩
  next rpcs dec st heq => cases h

/-- Field bookkeeping of a throwing `processPrepareRpcs` call: the thrown
status is a fatal server status. -/
theorem processPrepareRpcs_error (t u : Task) (st : Status)
    (h : processPrepareRpcs t = .error (u, st)) :
    u.state = t.state ∧ u.status = t.status ∧ u.commitCache = t.commitCache ∧
    u.nextCacheEntry = t.nextCacheEntry ∧
    u.rpcFinishedCount = t.rpcFinishedCount ∧ u.decisionRpcs = t.decisionRpcs ∧
    u.flushedTables = t.flushedTables ∧
    u.participantCount = t.participantCount ∧
    u.participantList = t.participantList ∧ u.txId = t.txId ∧
    (u.decision = t.decision ∨ u.decision = .ABORT) ∧
    (∃ c, st = .other c) := by
  have hd := processPrepareLoop_decision t.prepareRpcs t.decision
  have hth := processPrepareLoop_throw t.prepareRpcs t.decision st
  unfold processPrepareRpcs at h
  split at h
  next rpcs dec heq => cases h
  next rpcs dec st' heq =>
    cases h
    rw [heq] at hd hth
    exact ⟨rfl, rfl, rfl, rfl, rfl, rfl, rfl, rfl, rfl, rfl, hd, hth rfl⟩

/-- Field bookkeeping of a successful `processDecisionRpcs` call. -/
theorem processDecisionRpcs_ok (t u : Task) (h : processDecisionRpcs t = .ok u) :
    u.state = t.state ∧ u.status = t.status ∧ u.commitCache = t.commitCache ∧
    u.nextCacheEntry = t.nextCacheEntry ∧
    u.rpcFinishedCount = t.rpcFinishedCount ∧ u.prepareRpcs = t.prepareRpcs ∧
    u.flushedTables = t.flushedTables ∧
    u.participantCount = t.participantCount ∧
    u.participantList = t.participantList ∧ u.txId = t.txId ∧
    u.decision = t.decision := by
  unfold processDecisionRpcs at h
  split at h
  next rpcs heq =>
    cases h
    exact ⟨rfl, rfl, rfl, rfl, rfl, rfl, rfl, rfl, rfl, rfl, rfl⟩
  next rpcs st heq => cases h

/-- Field bookkeeping of a throwing `processDecisionRpcs` call. -/
theorem processDecisionRpcs_error (t u : Task) (st : Status)
    (h : processDecisionRpcs t = .error (u, st)) :
    u.state = t.state ∧ u.status = t.status ∧ u.commitCache = t.commitCache ∧
    u.nextCacheEntry = t.nextCacheEntry ∧
    u.rpcFinishedCount = t.rpcFinishedCount ∧ u.prepareRpcs = t.prepareRpcs ∧
    u.flushedTables = t.flushedTables ∧
    u.participantCount = t.participantCount ∧
    u.participantList = t.participantList ∧ u.txId = t.txId ∧
    u.decision = t.decision ∧ (∃ c, st = .other c) := by
  have hth := processDecisionLoop_throw t.decisionRpcs st
  unfold processDecisionRpcs at h
  split at h
  next rpcs heq => cases h
  next rpcs st' heq =>
    cases h
    rw [heq] at hth
    exact ⟨rfl, rfl, rfl, rfl, rfl, rfl, rfl, rfl, rfl, rfl, rfl, hth rfl⟩

/-- The prepare scan preserves the length of the cache suffix. -/
theorem sendPrepareScan_length (env : Env) (l : List (CacheKey × CacheEntry))
    (i : Nat) (cur : Option (Locator × List Nat)) :
    (sendPrepareScan env l i cur).1.length = l.length := by
  induction l generalizing i cur with
  | nil => rfl
  | cons ke rest ih =>
    by_cases h1 : ke.2.state = .PREPARE
    · simp [sendPrepareScan, h1, ih]
    · simp only [sendPrepareScan, if_neg h1]
      split
      · simp [ih]
      · simp

/-- Each position of the suffix is either untouched by the prepare scan or
advanced to `PREPARE` with all other fields intact. -/
theorem sendPrepareScan_get (env : Env) (l : List (CacheKey × CacheEntry))
    (i : Nat) (cur : Option (Locator × List Nat)) (m : Nat) :
    ((sendPrepareScan env l i cur).1)[m]? = l[m]? ∨
    ∃ k e, l[m]? = some (k, e) ∧
      ((sendPrepareScan env l i cur).1)[m]? =
        some (k, { e with state := .PREPARE }) := by
  induction l generalizing i cur m with
  | nil => exact .inl rfl
  | cons ke rest ih =>
    obtain ⟨k, e⟩ := ke
    by_cases h1 : e.state = .PREPARE
    · simp only [sendPrepareScan, if_pos h1]
      cases m with
      | zero => exact .inl (by simp)
      | succ m' => simpa using ih (i + 1) cur m'
    · simp only [sendPrepareScan, if_neg h1]
      split
      · cases m with
        | zero => exact .inr ⟨k, e, by simp, by simp⟩
        | succ m' => simpa using ih (i + 1) _ m'
      · exact .inl rfl

/-- The decision scan preserves the length of the cache suffix. -/
theorem sendDecisionScan_length (env : Env) (l : List (CacheKey × CacheEntry))
    (i : Nat) (cur : Option (Locator × List Nat)) :
    (sendDecisionScan env l i cur).1.length = l.length := by
  induction l generalizing i cur with
  | nil => rfl
  | cons ke rest ih =>
    by_cases h1 : ke.2.state = .DECIDE
    · simp [sendDecisionScan, h1, ih]
    · simp only [sendDecisionScan, if_neg h1]
      split
      · simp [ih]
      · simp

/-- Each position of the suffix is either untouched by the decision scan or
advanced to `DECIDE` with all other fields intact. -/
theorem sendDecisionScan_get (env : Env) (l : List (CacheKey × CacheEntry))
    (i : Nat) (cur : Option (Locator × List Nat)) (m : Nat) :
    ((sendDecisionScan env l i cur).1)[m]? = l[m]? ∨
    ∃ k e, l[m]? = some (k, e) ∧
      ((sendDecisionScan env l i cur).1)[m]? =
        some (k, { e with state := .DECIDE }) := by
  induction l generalizing i cur m with
  | nil => exact .inl rfl
  | cons ke rest ih =>
    obtain ⟨k, e⟩ := ke
    by_cases h1 : e.state = .DECIDE
    · simp only [sendDecisionScan, if_pos h1]
      cases m with
      | zero => exact .inl (by simp)
      | succ m' => simpa using ih (i + 1) cur m'
    · simp only [sendDecisionScan, if_neg h1]
      split
      · cases m with
        | zero => exact .inr ⟨k, e, by simp, by simp⟩
        | succ m' => simpa using ih (i + 1) _ m'
      · exact .inl rfl

/-- Fields of the task untouched by `sendPrepareRpc`. -/
theorem sendPrepareRpc_fields (env : Env) (t : Task) :
    (sendPrepareRpc env t).state = t.state ∧
    (sendPrepareRpc env t).status = t.status ∧
    (sendPrepareRpc env t).decision = t.decision ∧
    (sendPrepareRpc env t).participantCount = t.participantCount ∧
    (sendPrepareRpc env t).participantList = t.participantList ∧
    (sendPrepareRpc env t).txId = t.txId ∧
    (sendPrepareRpc env t).decisionRpcs = t.decisionRpcs ∧
    (sendPrepareRpc env t).rpcFinishedCount = t.rpcFinishedCount ∧
    (sendPrepareRpc env t).flushedTables = t.flushedTables := by
  cases h : (sendPrepareScan env (t.commitCache.drop t.nextCacheEntry)
      t.nextCacheEntry none).2.2 <;>
    simp [sendPrepareRpc, h]

/-- The cache left by `sendPrepareRpc`, in terms of the scan. -/
theorem sendPrepareRpc_cache (env : Env) (t : Task) :
    (sendPrepareRpc env t).commitCache =
      t.commitCache.take t.nextCacheEntry ++
        (sendPrepareScan env (t.commitCache.drop t.nextCacheEntry)
          t.nextCacheEntry none).1 := by
  cases h : (sendPrepareScan env (t.commitCache.drop t.nextCacheEntry)
      t.nextCacheEntry none).2.2 <;>
    simp [sendPrepareRpc, h]

/-- `sendPrepareRpc` preserves the cache length. -/
theorem sendPrepareRpc_cache_length (env : Env) (t : Task) :
    (sendPrepareRpc env t).commitCache.length = t.commitCache.length := by
  rw [sendPrepareRpc_cache]
  simp only [List.length_append, List.length_take, sendPrepareScan_length,
    List.length_drop]
  omega

/-- Each cache position is either untouched by `sendPrepareRpc` or advanced
to `PREPARE` with all other fields intact. -/
theorem sendPrepareRpc_cacheGet (env : Env) (t : Task) (j : Nat) :
    (sendPrepareRpc env t).commitCache[j]? = t.commitCache[j]? ∨
    ∃ k e, t.commitCache[j]? = some (k, e) ∧
      (sendPrepareRpc env t).commitCache[j]? =
        some (k, { e with state := .PREPARE }) := by
  rw [sendPrepareRpc_cache]
  by_cases hj : j < (t.commitCache.take t.nextCacheEntry).length
  · left
    rw [List.getElem?_append, if_pos hj]
    rw [List.getElem?_take, if_pos (by simp [List.length_take] at hj; omega)]
  · have hj' : (t.commitCache.take t.nextCacheEntry).length ≤ j := le_of_not_lt hj
    rw [List.getElem?_append_right hj']
    have hmin : (t.commitCache.take t.nextCacheEntry).length =
        min t.nextCacheEntry t.commitCache.length := by
      simp [List.length_take]
    by_cases hn : t.nextCacheEntry ≤ t.commitCache.length
    · have hlen : (t.commitCache.take t.nextCacheEntry).length = t.nextCacheEntry := by
        omega
      have hdrop : (t.commitCache.drop t.nextCacheEntry)[j -
          (t.commitCache.take t.nextCacheEntry).length]? = t.commitCache[j]? := by
        rw [List.getElem?_drop]
        congr 1
        omega
      rcases sendPrepareScan_get env (t.commitCache.drop t.nextCacheEntry)
          t.nextCacheEntry none (j - (t.commitCache.take t.nextCacheEntry).length) with
        hcase | ⟨k, e, hke, hres⟩
      · left
        rw [hcase, hdrop]
      · right
        exact ⟨k, e, by rw [← hdrop, hke], hres⟩
    · left
      have hjlen : t.commitCache.length ≤ j := by omega
      have h1 : (t.commitCache.drop t.nextCacheEntry) = [] := by
        apply List.eq_nil_of_length_eq_zero
        simp [List.length_drop]
        omega
      rw [h1]
      have h2 : (sendPrepareScan env [] t.nextCacheEntry none).1 = [] := rfl
      rw [h2]
      rw [List.getElem?_eq_none (by simp), List.getElem?_eq_none hjlen]

/-- The pending prepare list after `sendPrepareRpc`: unchanged, or grown by
exactly one freshly sent RPC. -/
theorem sendPrepareRpc_rpcs (env : Env) (t : Task) :
    (sendPrepareRpc env t).prepareRpcs = t.prepareRpcs ∨
    ∃ loc ops, (sendPrepareRpc env t).prepareRpcs =
      t.prepareRpcs ++ [{ sessionLoc := loc, ops := ops, outcome := .notReady }] := by
  cases h : (sendPrepareScan env (t.commitCache.drop t.nextCacheEntry)
      t.nextCacheEntry none).2.2 with
  | none => exact .inl (by simp [sendPrepareRpc, h])
  | some locOps =>
      exact .inr ⟨locOps.1, locOps.2, by simp [sendPrepareRpc, h]⟩

/-- Fields of the task untouched by `sendDecisionRpc`. -/
theorem sendDecisionRpc_fields (env : Env) (t : Task) :
    (sendDecisionRpc env t).state = t.state ∧
    (sendDecisionRpc env t).status = t.status ∧
    (sendDecisionRpc env t).decision = t.decision ∧
    (sendDecisionRpc env t).participantCount = t.participantCount ∧
    (sendDecisionRpc env t).participantList = t.participantList ∧
    (sendDecisionRpc env t).txId = t.txId ∧
    (sendDecisionRpc env t).prepareRpcs = t.prepareRpcs ∧
    (sendDecisionRpc env t).rpcFinishedCount = t.rpcFinishedCount ∧
    (sendDecisionRpc env t).flushedTables = t.flushedTables := by
  cases h : (sendDecisionScan env (t.commitCache.drop t.nextCacheEntry)
      t.nextCacheEntry none).2.2 <;>
    simp [sendDecisionRpc, h]

/-- The cache left by `sendDecisionRpc`, in terms of the scan. -/
theorem sendDecisionRpc_cache (env : Env) (t : Task) :
    (sendDecisionRpc env t).commitCache =
      t.commitCache.take t.nextCacheEntry ++
        (sendDecisionScan env (t.commitCache.drop t.nextCacheEntry)
          t.nextCacheEntry none).1 := by
  cases h : (sendDecisionScan env (t.commitCache.drop t.nextCacheEntry)
      t.nextCacheEntry none).2.2 <;>
    simp [sendDecisionRpc, h]

/-- `sendDecisionRpc` preserves the cache length. -/
theorem sendDecisionRpc_cache_length (env : Env) (t : Task) :
    (sendDecisionRpc env t).commitCache.length = t.commitCache.length := by
  rw [sendDecisionRpc_cache]
  simp only [List.length_append, List.length_take, sendDecisionScan_length,
    List.length_drop]
  omega

/-- Each cache position is either untouched by `sendDecisionRpc` or advanced
to `DECIDE` with all other fields intact. -/
theorem sendDecisionRpc_cacheGet (env : Env) (t : Task) (j : Nat) :
    (sendDecisionRpc env t).commitCache[j]? = t.commitCache[j]? ∨
    ∃ k e, t.commitCache[j]? = some (k, e) ∧
      (sendDecisionRpc env t).commitCache[j]? =
        some (k, { e with state := .DECIDE }) := by
  rw [sendDecisionRpc_cache]
  by_cases hj : j < (t.commitCache.take t.nextCacheEntry).length
  · left
    rw [List.getElem?_append, if_pos hj]
    rw [List.getElem?_take, if_pos (by simp [List.length_take] at hj; omega)]
  · have hj' : (t.commitCache.take t.nextCacheEntry).length ≤ j := le_of_not_lt hj
    rw [List.getElem?_append_right hj']
    have hmin : (t.commitCache.take t.nextCacheEntry).length =
        min t.nextCacheEntry t.commitCache.length := by
      simp [List.length_take]
    by_cases hn : t.nextCacheEntry ≤ t.commitCache.length
    · have hdrop : (t.commitCache.drop t.nextCacheEntry)[j -
          (t.commitCache.take t.nextCacheEntry).length]? = t.commitCache[j]? := by
        rw [List.getElem?_drop]
        congr 1
        omega
      rcases sendDecisionScan_get env (t.commitCache.drop t.nextCacheEntry)
          t.nextCacheEntry none (j - (t.commitCache.take t.nextCacheEntry).length) with
        hcase | ⟨k, e, hke, hres⟩
      · left
        rw [hcase, hdrop]
      · right
        exact ⟨k, e, by rw [← hdrop, hke], hres⟩
    · left
      have hjlen : t.commitCache.length ≤ j := by omega
      have h1 : (t.commitCache.drop t.nextCacheEntry) = [] := by
        apply List.eq_nil_of_length_eq_zero
        simp [List.length_drop]
        omega
      rw [h1]
      have h2 : (sendDecisionScan env [] t.nextCacheEntry none).1 = [] := rfl
      rw [h2]
      rw [List.getElem?_eq_none (by simp), List.getElem?_eq_none hjlen]

/-- The pending decision list after `sendDecisionRpc`: unchanged, or grown
by exactly one freshly sent RPC. -/
theorem sendDecisionRpc_rpcs (env : Env) (t : Task) :
    (sendDecisionRpc env t).decisionRpcs = t.decisionRpcs ∨
    ∃ loc ops, (sendDecisionRpc env t).decisionRpcs =
      t.decisionRpcs ++ [{ sessionLoc := loc, ops := ops, outcome := .notReady }] := by
  cases h : (sendDecisionScan env (t.commitCache.drop t.nextCacheEntry)
      t.nextCacheEntry none).2.2 with
  | none => exact .inl (by simp [sendDecisionRpc, h])
  | some locOps =>
      exact .inr ⟨locOps.1, locOps.2, by simp [sendDecisionRpc, h]⟩

/-- Entries named by the retry loop are reset to `PENDING` (all other fields
kept); entries not named are untouched. -/
theorem retryLoop_get (ops : List Nat) (cache : List (CacheKey × CacheEntry))
    (fl : List TableId) (j : Nat) :
    (retryLoop ops cache fl).1[j]? =
      if j ∈ ops then
        (cache[j]?).map (fun ke => (ke.1, { ke.2 with state := EntryState.PENDING }))
      else cache[j]? := by
  induction ops generalizing cache fl with
  | nil => simp [retryLoop]
  | cons i rest ih =>
    cases hc : cache[i]? with
    | none =>
      rw [show retryLoop (i :: rest) cache fl = retryLoop rest cache fl from by
        simp [retryLoop, hc]]
      rw [ih]
      by_cases hj : j = i
      · subst hj
        simp [hc]
      · simp [List.mem_cons, hj]
    | some ke =>
      rw [show retryLoop (i :: rest) cache fl =
          retryLoop rest (cache.set i (ke.1, { ke.2 with state := .PENDING }))
            (fl ++ [ke.1.tableId]) from by
        simp [retryLoop, hc]]
      rw [ih]
      have hilen : i < cache.length := (List.getElem?_eq_some.mp hc).1
      by_cases hj : j = i
      · subst hj
        by_cases hmem : j ∈ rest <;>
          simp [hmem, hc, List.getElem?_set, hilen]
      · have hij : ¬i = j := fun h => hj h.symm
        simp [List.mem_cons, hj, hij, List.getElem?_set]

/-- The flush log written by the retry loop: one `objectFinder.flush` per
named entry, in op order. -/
theorem retryLoop_flushes (ops : List Nat) (cache : List (CacheKey × CacheEntry))
    (fl : List TableId) :
    (retryLoop ops cache fl).2 =
      fl ++ ops.filterMap (fun j => (cache[j]?).map (fun ke => ke.1.tableId)) := by
  induction ops generalizing cache fl with
  | nil => simp [retryLoop]
  | cons i rest ih =>
    cases hc : cache[i]? with
    | none =>
      rw [show retryLoop (i :: rest) cache fl = retryLoop rest cache fl from by
        simp [retryLoop, hc]]
      rw [ih]
      rw [List.filterMap_cons]
      simp [hc]
    | some ke =>
      rw [show retryLoop (i :: rest) cache fl =
          retryLoop rest (cache.set i (ke.1, { ke.2 with state := .PENDING }))
            (fl ++ [ke.1.tableId]) from by
        simp [retryLoop, hc]]
      rw [ih]
      have hilen : i < cache.length := (List.getElem?_eq_some.mp hc).1
      rw [List.filterMap_cons]
      simp only [hc, Option.map_some']
      rw [List.append_assoc]
      congr 1
      rw [List.singleton_append]
      congr 1
      apply List.filterMap_congr
      intro j hj
      by_cases hij : i = j
      · subst hij
        simp [List.getElem?_set, hilen, hc]
      · simp [List.getElem?_set, hij]

/-- Positions assigned by the `initTask` loop: entry `m` of the suffix gets
`rpcId = txId + (i + m)` in `uint64_t` arithmetic, all other fields kept. -/
theorem initTaskLoop_fst_get (txId : Nat) (l : List (CacheKey × CacheEntry))
    (i pc m : Nat) :
    (initTaskLoop txId i pc l).1[m]? =
      (l[m]?).map (fun ke => (ke.1, { ke.2 with rpcId := (txId + (i + m)) % U64 })) := by
  induction l generalizing i pc m with
  | nil => simp [initTaskLoop]
  | cons ke rest ih =>
    obtain ⟨k, e⟩ := ke
    cases m with
    | zero => simp [initTaskLoop]
    | succ m' =>
      have harith : i + (m' + 1) = (i + 1) + m' := by omega
      simp only [initTaskLoop, List.getElem?_cons_succ]
      rw [ih (i + 1) ((pc + 1) % U32) m', harith]

/-- Participant records appended by the `initTask` loop: record `m` carries
the suffix entry's key pair and its fresh `rpcId`. -/
theorem initTaskLoop_snd_get (txId : Nat) (l : List (CacheKey × CacheEntry))
    (i pc m : Nat) :
    (initTaskLoop txId i pc l).2.1[m]? =
      (l[m]?).map (fun ke =>
        { tableId := ke.1.tableId, keyHash := ke.1.keyHash,
          rpcId := (txId + (i + m)) % U64 }) := by
  induction l generalizing i pc m with
  | nil => simp [initTaskLoop]
  | cons ke rest ih =>
    obtain ⟨k, e⟩ := ke
    cases m with
    | zero => simp [initTaskLoop]
    | succ m' =>
      have harith : i + (m' + 1) = (i + 1) + m' := by omega
      simp only [initTaskLoop, List.getElem?_cons_succ]
      rw [ih (i + 1) ((pc + 1) % U32) m', harith]

/-- The `initTask` loop preserves the cache length. -/
theorem initTaskLoop_fst_length (txId : Nat) (l : List (CacheKey × CacheEntry))
    (i pc : Nat) : (initTaskLoop txId i pc l).1.length = l.length := by
  induction l generalizing i pc with
  | nil => rfl
  | cons ke rest ih => simp [initTaskLoop, ih]

/-- The `initTask` loop appends one participant record per cache entry. -/
theorem initTaskLoop_snd_length (txId : Nat) (l : List (CacheKey × CacheEntry))
    (i pc : Nat) : (initTaskLoop txId i pc l).2.1.length = l.length := by
  induction l generalizing i pc with
  | nil => rfl
  | cons ke rest ih => simp [initTaskLoop, ih]

/-- The `participantCount` accumulated by the `initTask` loop
(one `uint32_t` increment per entry). -/
theorem initTaskLoop_count (txId : Nat) (l : List (CacheKey × CacheEntry)) :
    ∀ i pc, pc < U32 → (initTaskLoop txId i pc l).2.2 = (pc + l.length) % U32 := by
  induction l with
  | nil =>
    intro i pc hpc
    simp [initTaskLoop, Nat.mod_eq_of_lt hpc]
  | cons ke rest ih =>
    intro i pc hpc
    have h32 : 0 < U32 := by norm_num [U32]
    rw [show (initTaskLoop txId i pc (ke :: rest)).2.2 =
        (initTaskLoop txId (i + 1) ((pc + 1) % U32) rest).2.2 from by
      simp [initTaskLoop]]
    rw [ih (i + 1) ((pc + 1) % U32) (Nat.mod_lt _ h32)]
    rw [Nat.mod_add_mod]
    congr 1
    simp [List.length_cons]
    omega

/-- Fields of the task untouched by `initTask`, and the fields it sets. -/
theorem initTask_fields (env : Env) (t : Task) :
    (initTask env t).state = t.state ∧ (initTask env t).status = t.status ∧
    (initTask env t).decision = t.decision ∧
    (initTask env t).prepareRpcs = t.prepareRpcs ∧
    (initTask env t).decisionRpcs = t.decisionRpcs ∧
    (initTask env t).rpcFinishedCount = t.rpcFinishedCount ∧
    (initTask env t).flushedTables = t.flushedTables ∧
    (initTask env t).nextCacheEntry = t.commitCache.length ∧
    (initTask env t).txId = env.newTxId := by
  simp [initTask]

/-- The cache after `initTask`: entry `m` gets `rpcId = txId + m`
(`uint64_t`), all other fields kept. -/
theorem initTask_cacheGet (env : Env) (t : Task) (m : Nat) :
    (initTask env t).commitCache[m]? =
      (t.commitCache[m]?).map (fun ke =>
        (ke.1, { ke.2 with rpcId := (env.newTxId + m) % U64 })) := by
  simp only [initTask]
  rw [initTaskLoop_fst_get env.newTxId t.commitCache 0 t.participantCount m]
  simp

/-- Fields of the task untouched by `retryRequest`, and the cursor rewind. -/
theorem retryRequest_fields (r : Rpc) (t : Task) :
    (retryRequest r t).state = t.state ∧ (retryRequest r t).status = t.status ∧
    (retryRequest r t).decision = t.decision ∧
    (retryRequest r t).participantCount = t.participantCount ∧
    (retryRequest r t).participantList = t.participantList ∧
    (retryRequest r t).txId = t.txId ∧
    (retryRequest r t).prepareRpcs = t.prepareRpcs ∧
    (retryRequest r t).decisionRpcs = t.decisionRpcs ∧
    (retryRequest r t).rpcFinishedCount = t.rpcFinishedCount ∧
    (retryRequest r t).nextCacheEntry = 0 := by
  simp [retryRequest]

/-- The cache after `retryRequest`: the RPC's entries reset to `PENDING`,
everything else untouched. -/
theorem retryRequest_cacheGet (r : Rpc) (t : Task) (j : Nat) :
    (retryRequest r t).commitCache[j]? =
      if j ∈ r.ops then
        (t.commitCache[j]?).map
          (fun ke => (ke.1, { ke.2 with state := EntryState.PENDING }))
      else t.commitCache[j]? := by
  simp only [retryRequest]
  exact retryLoop_get r.ops t.commitCache t.flushedTables j

/-- The flush log after `retryRequest`. -/
theorem retryRequest_flushes (r : Rpc) (t : Task) :
    (retryRequest r t).flushedTables =
      t.flushedTables ++ r.ops.filterMap
        (fun j => (t.commitCache[j]?).map (fun ke => ke.1.tableId)) := by
  simp only [retryRequest]
  exact retryLoop_flushes r.ops t.commitCache t.flushedTables

/-- Weak cache characterization shared by all four transport callbacks:
every entry is untouched or reset to `PENDING`. -/
theorem retryRequest_cacheGet_cases (r : Rpc) (t : Task) (j : Nat) :
    (retryRequest r t).commitCache[j]? = t.commitCache[j]? ∨
    ∃ k e, t.commitCache[j]? = some (k, e) ∧
      (retryRequest r t).commitCache[j]? =
        some (k, { e with state := .PENDING }) := by
  rw [retryRequest_cacheGet]
  by_cases hmem : j ∈ r.ops
  · rw [if_pos hmem]
    cases hc : t.commitCache[j]? with
    | none => exact .inl rfl
    | some ke =>
      obtain ⟨k, e⟩ := ke
      exact .inr ⟨k, e, rfl, rfl⟩
  · rw [if_neg hmem]
    exact .inl rfl

/-- Fields relevant to the global invariant, for the prepare transport
failure callback. -/
theorem prepTransportFail_fields (i : Nat) (t : Task) :
    (prepTransportFail i t).state = t.state ∧
    (prepTransportFail i t).status = t.status ∧
    (prepTransportFail i t).decision = t.decision ∧
    (prepTransportFail i t).rpcFinishedCount = t.rpcFinishedCount ∧
    ∀ j : Nat, (prepTransportFail i t).commitCache[j]? = t.commitCache[j]? ∨
      ∃ k e, t.commitCache[j]? = some (k, e) ∧
        (prepTransportFail i t).commitCache[j]? =
          some (k, { e with state := .PENDING }) := by
  cases h : t.prepareRpcs[i]? with
  | none => simp [prepTransportFail, h]
  | some r =>
    by_cases hr : r.outcome = .notReady
    · simp only [prepTransportFail, h, if_pos hr]
      obtain ⟨h1, h2, h3, _, _, _, _, _, h9, _⟩ := retryRequest_fields r t
      exact ⟨h1, h2, h3, h9, fun j => retryRequest_cacheGet_cases r t j⟩
    · simp [prepTransportFail, h, hr]

/-- Fields relevant to the global invariant, for prepare response
delivery. -/
theorem prepDeliver_fields (i : Nat) (st : Status) (vote : TxDecision)
    (t : Task) :
    (prepDeliver i st vote t).state = t.state ∧
    (prepDeliver i st vote t).status = t.status ∧
    (prepDeliver i st vote t).decision = t.decision ∧
    (prepDeliver i st vote t).rpcFinishedCount = t.rpcFinishedCount ∧
    ∀ j : Nat, (prepDeliver i st vote t).commitCache[j]? = t.commitCache[j]? ∨
      ∃ k e, t.commitCache[j]? = some (k, e) ∧
        (prepDeliver i st vote t).commitCache[j]? =
          some (k, { e with state := .PENDING }) := by
  cases h : t.prepareRpcs[i]? with
  | none => simp [prepDeliver, h]
  | some r =>
    by_cases hr : r.outcome = .notReady
    · by_cases hst : st = .UNKNOWN_TABLET
      · simp only [prepDeliver, h, if_pos hr, if_pos hst]
        obtain ⟨h1, h2, h3, _, _, _, _, _, h9, _⟩ := retryRequest_fields r t
        exact ⟨h1, h2, h3, h9, fun j => retryRequest_cacheGet_cases r t j⟩
      · simp [prepDeliver, h, hr, hst]
    · simp [prepDeliver, h, hr]

/-- Fields relevant to the global invariant, for the decision transport
failure callback. -/
theorem decTransportFail_fields (i : Nat) (t : Task) :
    (decTransportFail i t).state = t.state ∧
    (decTransportFail i t).status = t.status ∧
    (decTransportFail i t).decision = t.decision ∧
    (decTransportFail i t).rpcFinishedCount = t.rpcFinishedCount ∧
    ∀ j : Nat, (decTransportFail i t).commitCache[j]? = t.commitCache[j]? ∨
      ∃ k e, t.commitCache[j]? = some (k, e) ∧
        (decTransportFail i t).commitCache[j]? =
          some (k, { e with state := .PENDING }) := by
  cases h : t.decisionRpcs[i]? with
  | none => simp [decTransportFail, h]
  | some r =>
    by_cases hr : r.outcome = .notReady
    · simp only [decTransportFail, h, if_pos hr]
      obtain ⟨h1, h2, h3, _, _, _, _, _, h9, _⟩ := retryRequest_fields r t
      exact ⟨h1, h2, h3, h9, fun j => retryRequest_cacheGet_cases r t j⟩
    · simp [decTransportFail, h, hr]

/-- Fields relevant to the global invariant, for decision response
delivery. -/
theorem decDeliver_fields (i : Nat) (st : Status) (t : Task) :
    (decDeliver i st t).state = t.state ∧
    (decDeliver i st t).status = t.status ∧
    (decDeliver i st t).decision = t.decision ∧
    (decDeliver i st t).rpcFinishedCount = t.rpcFinishedCount ∧
    ∀ j : Nat, (decDeliver i st t).commitCache[j]? = t.commitCache[j]? ∨
      ∃ k e, t.commitCache[j]? = some (k, e) ∧
        (decDeliver i st t).commitCache[j]? =
          some (k, { e with state := .PENDING }) := by
  cases h : t.decisionRpcs[i]? with
  | none => simp [decDeliver, h]
  | some r =>
    by_cases hr : r.outcome = .notReady
    · by_cases hst : st = .UNKNOWN_TABLET
      · simp only [decDeliver, h, if_pos hr, if_pos hst]
        obtain ⟨h1, h2, h3, _, _, _, _, _, h9, _⟩ := retryRequest_fields r t
        exact ⟨h1, h2, h3, h9, fun j => retryRequest_cacheGet_cases r t j⟩
      · simp [decDeliver, h, hr, hst]
    · simp [decDeliver, h, hr]

/-- No cache entry has reached `DECIDE`. -/
def noDecideEntries (t : Task) : Prop :=
  ∀ (j : Nat) (k : CacheKey) (e : CacheEntry),
    t.commitCache[j]? = some (k, e) → e.state ≠ .DECIDE

/-- The global reachability invariant: before the decision phase no entry is
`DECIDE`; the status stays `OK` until `DONE`; the decision is finalized
(`COMMIT` or `ABORT`) in the decision phase and at an `OK` `DONE`; and
`rpcTracker.rpcFinished` has been called exactly once at `DONE` and never
before. -/
def Inv (t : Task) : Prop :=
  ((t.state = .INIT ∨ t.state = .PREPARE) → noDecideEntries t) ∧
  (t.state ≠ .DONE → t.status = .OK) ∧
  (t.state = .DECISION → t.decision = .COMMIT ∨ t.decision = .ABORT) ∧
  (t.state = .DONE → t.status = .OK →
    t.decision = .COMMIT ∨ t.decision = .ABORT) ∧
  t.rpcFinishedCount = (if t.state = .DONE then 1 else 0)

/-- A freshly staged task satisfies the invariant. -/
theorem inv_mkTask (cache : List (CacheKey × OpType)) : Inv (mkTask cache) := by
  refine ⟨?_, fun _ => rfl, ?_, ?_, rfl⟩
  · intro _
    unfold noDecideEntries
    intro j k e hj
    simp only [mkTask] at hj
    rw [List.getElem?_map] at hj
    cases hc : cache[j]? with
    | none => rw [hc] at hj; cases hj
    | some kt =>
      rw [hc] at hj
      simp only [Option.map_some'] at hj
      have hj' : kt.1 = k ∧ stagedEntry kt.2 = e := by
        simpa [Prod.ext_iff] using hj
      rw [← hj'.2]
      simp [stagedEntry]
  · intro h
    simp [mkTask] at h
  · intro h
    simp [mkTask] at h

/-- The `catch` handler establishes the invariant whenever the tracker has
not yet been notified and the recorded status is a failure. -/
theorem inv_fatalError (u : Task) (st : Status) (hcount : u.rpcFinishedCount = 0)
    (hst : st ≠ .OK) : Inv (fatalError u st) := by
  refine ⟨?_, ?_, ?_, ?_, ?_⟩
  · rintro (h | h) <;> simp [fatalError] at h
  · intro h
    exact absurd rfl h
  · intro h
    simp [fatalError] at h
  · intro _ hok
    exact absurd hok hst
  · simp [fatalError, hcount]

/-- The `INIT` block preserves the invariant. -/
theorem inv_initPhase (env : Env) (t : Task) (h : Inv t) : Inv (initPhase env t) := by
  obtain ⟨h1, h2, h3, h4, h5⟩ := h
  by_cases hs : t.state = .INIT
  · obtain ⟨f1, f2, f3, _, _, _, _, _, _⟩ := initTask_fields env t
    have hstate : (initPhase env t).state = .PREPARE := by simp [initPhase, hs]
    have hstatus : (initPhase env t).status = t.status := by
      simp [initPhase, hs, f2]
    have hdec : (initPhase env t).decision = t.decision := by
      simp [initPhase, hs, f3]
    have hcount : (initPhase env t).rpcFinishedCount = t.rpcFinishedCount := by
      simp only [initPhase, if_pos hs]
      exact (initTask_fields env t).2.2.2.2.2.1
    have hcache : ∀ j : Nat, (initPhase env t).commitCache[j]? =
        (t.commitCache[j]?).map (fun ke =>
          (ke.1, { ke.2 with rpcId := (env.newTxId + j) % U64 })) := by
      intro j
      simp only [initPhase, if_pos hs]
      exact initTask_cacheGet env t j
    refine ⟨?_, ?_, ?_, ?_, ?_⟩
    · intro _
      unfold noDecideEntries
      intro j k e hj
      rw [hcache j] at hj
      cases hc : t.commitCache[j]? with
      | none => rw [hc] at hj; cases hj
      | some ke =>
        rw [hc] at hj
        have := h1 (Or.inl hs) j ke.1 ke.2 (by rw [hc])
        obtain ⟨hk, he⟩ : ke.1 = k ∧
            { ke.2 with rpcId := (env.newTxId + j) % U64 } = e := by
          simpa using hj
        intro hde
        exact this (by rw [← he] at hde; simpa using hde)
    · intro _
      rw [hstatus]
      exact h2 (by simp [hs])
    · intro hd
      rw [hstate] at hd
      cases hd
    · intro hd
      rw [hstate] at hd
      cases hd
    · rw [hcount, hstate, h5]
      simp [hs]
  · have : initPhase env t = t := by simp [initPhase, hs]
    rw [this]
    exact ⟨h1, h2, h3, h4, h5⟩

/-- The `PREPARE` block preserves the invariant (no throw). -/
theorem inv_preparePhase (env : Env) (t u : Task) (h : Inv t)
    (hok : preparePhase env t = .ok u) : Inv u := by
  obtain ⟨h1, h2, h3, h4, h5⟩ := h
  unfold preparePhase at hok
  by_cases hs : t.state = .PREPARE
  · rw [if_pos hs] at hok
    cases hp : processPrepareRpcs t with
    | error e => rw [hp] at hok; cases hok
    | ok t1 =>
      rw [hp] at hok
      obtain rfl : prepareTransition (sendPrepareRpc env t1) = u := by
        cases hok
        rfl
      obtain ⟨g1, g2, g3, g4, g5, g6, g7, g8, g9, g10, g11⟩ :=
        processPrepareRpcs_ok t t1 hp
      obtain ⟨s1, s2, s3, _, _, _, _, s8, _⟩ := sendPrepareRpc_fields env t1
      have ht2state : (sendPrepareRpc env t1).state = .PREPARE := by
        rw [s1, g1, hs]
      have ht2status : (sendPrepareRpc env t1).status = .OK := by
        rw [s2, g2]
        exact h2 (by simp [hs])
      have ht2count : (sendPrepareRpc env t1).rpcFinishedCount = 0 := by
        rw [s8, g5, h5]
        simp [hs]
      have ht2nodec : noDecideEntries (sendPrepareRpc env t1) := by
        unfold noDecideEntries
        intro j k e hj
        rcases sendPrepareRpc_cacheGet env t1 j with hcase | ⟨k', e', hke, hres⟩
        · rw [hcase, g3] at hj
          exact h1 (Or.inr hs) j k e hj
        · rw [hres] at hj
          obtain ⟨-, he⟩ : k' = k ∧ { e' with state := EntryState.PREPARE } = e := by
            simpa [Prod.ext_iff] using hj
          rw [← he]
          simp
      unfold prepareTransition
      by_cases hcond : (sendPrepareRpc env t1).prepareRpcs = [] ∧
          (sendPrepareRpc env t1).nextCacheEntry =
            (sendPrepareRpc env t1).commitCache.length
      · rw [if_pos hcond]
        refine ⟨?_, ?_, ?_, ?_, ?_⟩
        · rintro (hh | hh) <;> simp at hh
        · intro _
          exact ht2status
        · intro _
          by_cases hab : (sendPrepareRpc env t1).decision = .ABORT
          · simp [hab]
          · simp [hab]
        · intro hd
          simp at hd
        · simp [ht2count]
      · rw [if_neg hcond]
        refine ⟨?_, ?_, ?_, ?_, ?_⟩
        · intro _
          exact ht2nodec
        · intro _
          exact ht2status
        · intro hd
          rw [ht2state] at hd
          cases hd
        · intro hd
          rw [ht2state] at hd
          cases hd
        · rw [ht2count, ht2state]
          simp
  · rw [if_neg hs] at hok
    obtain rfl : t = u := by cases hok; rfl
    exact ⟨h1, h2, h3, h4, h5⟩

/-- A throw inside the `PREPARE` block lands in a valid `DONE` state. -/
theorem inv_preparePhase_err (env : Env) (t u : Task) (st : Status) (h : Inv t)
    (herr : preparePhase env t = .error (u, st)) : Inv (fatalError u st) := by
  obtain ⟨h1, h2, h3, h4, h5⟩ := h
  unfold preparePhase at herr
  by_cases hs : t.state = .PREPARE
  · rw [if_pos hs] at herr
    cases hp : processPrepareRpcs t with
    | ok t1 => rw [hp] at herr; cases herr
    | error es =>
      rw [hp] at herr
      obtain rfl : es = (u, st) := by cases herr; rfl
      obtain ⟨e1, e2, e3, e4, e5, e6, e7, e8, e9, e10, e11, e12⟩ :=
        processPrepareRpcs_error t u st hp
      obtain ⟨c, rfl⟩ := e12
      refine inv_fatalError u _ ?_ (by simp)
      rw [e5, h5]
      simp [hs]
  · rw [if_neg hs] at herr
    cases herr

/-- The `DECISION` block preserves the invariant (no throw). -/
theorem inv_decisionPhase (env : Env) (t u : Task) (h : Inv t)
    (hok : decisionPhase env t = .ok u) : Inv u := by
  obtain ⟨h1, h2, h3, h4, h5⟩ := h
  unfold decisionPhase at hok
  by_cases hs : t.state = .DECISION
  · rw [if_pos hs] at hok
    cases hp : processDecisionRpcs t with
    | error e => rw [hp] at hok; cases hok
    | ok t1 =>
      rw [hp] at hok
      obtain rfl : decisionTransition (sendDecisionRpc env t1) = u := by
        cases hok
        rfl
      obtain ⟨g1, g2, g3, g4, g5, g6, g7, g8, g9, g10, g11⟩ :=
        processDecisionRpcs_ok t t1 hp
      obtain ⟨s1, s2, s3, _, _, _, _, s8, _⟩ := sendDecisionRpc_fields env t1
      have ht2state : (sendDecisionRpc env t1).state = .DECISION := by
        rw [s1, g1, hs]
      have ht2status : (sendDecisionRpc env t1).status = .OK := by
        rw [s2, g2]
        exact h2 (by simp [hs])
      have ht2count : (sendDecisionRpc env t1).rpcFinishedCount = 0 := by
        rw [s8, g5, h5]
        simp [hs]
      have ht2dec : (sendDecisionRpc env t1).decision = .COMMIT ∨
          (sendDecisionRpc env t1).decision = .ABORT := by
        rw [s3, g11]
        exact h3 hs
      unfold decisionTransition
      by_cases hcond : (sendDecisionRpc env t1).decisionRpcs = [] ∧
          (sendDecisionRpc env t1).nextCacheEntry =
            (sendDecisionRpc env t1).commitCache.length
      · rw [if_pos hcond]
        refine ⟨?_, ?_, ?_, ?_, ?_⟩
        · rintro (hh | hh) <;> simp at hh
        · intro hd
          exact absurd rfl hd
        · intro hd
          simp at hd
        · intro _ _
          exact ht2dec
        · simp [ht2count]
      · rw [if_neg hcond]
        refine ⟨?_, ?_, ?_, ?_, ?_⟩
        · rintro (hh | hh) <;> rw [ht2state] at hh <;> cases hh
        · intro _
          exact ht2status
        · intro _
          exact ht2dec
        · intro hd
          rw [ht2state] at hd
          cases hd
        · rw [ht2count, ht2state]
          simp
  · rw [if_neg hs] at hok
    obtain rfl : t = u := by cases hok; rfl
    exact ⟨h1, h2, h3, h4, h5⟩

/-- A throw inside the `DECISION` block lands in a valid `DONE` state. -/
theorem inv_decisionPhase_err (env : Env) (t u : Task) (st : Status) (h : Inv t)
    (herr : decisionPhase env t = .error (u, st)) : Inv (fatalError u st) := by
  obtain ⟨h1, h2, h3, h4, h5⟩ := h
  unfold decisionPhase at herr
  by_cases hs : t.state = .DECISION
  · rw [if_pos hs] at herr
    cases hp : processDecisionRpcs t with
    | ok t1 => rw [hp] at herr; cases herr
    | error es =>
      rw [hp] at herr
      obtain rfl : es = (u, st) := by cases herr; rfl
      obtain ⟨e1, e2, e3, e4, e5, e6, e7, e8, e9, e10, e11, e12⟩ :=
        processDecisionRpcs_error t u st hp
      obtain ⟨c, rfl⟩ := e12
      refine inv_fatalError u _ ?_ (by simp)
      rw [e5, h5]
      simp [hs]
  · rw [if_neg hs] at herr
    cases herr

/-- Characterization of `performTask` when the `PREPARE` block throws. -/
theorem performTask_eq_err1 (env : Env) (t : Task) (es : Task × Status)
    (hp : preparePhase env (initPhase env t) = .error es) :
    performTask env t = fatalError es.1 es.2 := by
  unfold performTask
  rw [hp]

/-- Characterization of `performTask` when the `PREPARE` block succeeds. -/
theorem performTask_eq_ok (env : Env) (t t1 : Task)
    (hp : preparePhase env (initPhase env t) = .ok t1) :
    performTask env t =
      (match decisionPhase env t1 with
        | .error es => fatalError es.1 es.2
        | .ok t2 => t2) := by
  unfold performTask
  rw [hp]

/-- One `performTask` call preserves the invariant. -/
theorem inv_performTask (env : Env) (t : Task) (h : Inv t) :
    Inv (performTask env t) := by
  have hi := inv_initPhase env t h
  cases hp : preparePhase env (initPhase env t) with
  | error es =>
    rw [performTask_eq_err1 env t es hp]
    exact inv_preparePhase_err env (initPhase env t) es.1 es.2 hi (by rw [hp])
  | ok t1 =>
    have h1 := inv_preparePhase env (initPhase env t) t1 hi hp
    rw [performTask_eq_ok env t t1 hp]
    cases hd : decisionPhase env t1 with
    | error es =>
      exact inv_decisionPhase_err env t1 es.1 es.2 h1 (by rw [hd])
    | ok t2 =>
      exact inv_decisionPhase env t1 t2 h1 hd

/-- The invariant follows from any transport callback's field facts. -/
theorem inv_of_fields (t t' : Task)
    (hstate : t'.state = t.state) (hstatus : t'.status = t.status)
    (hdec : t'.decision = t.decision)
    (hcount : t'.rpcFinishedCount = t.rpcFinishedCount)
    (hcache : ∀ j : Nat, t'.commitCache[j]? = t.commitCache[j]? ∨
      ∃ k e, t.commitCache[j]? = some (k, e) ∧
        t'.commitCache[j]? = some (k, { e with state := .PENDING }))
    (h : Inv t) : Inv t' := by
  obtain ⟨h1, h2, h3, h4, h5⟩ := h
  refine ⟨?_, ?_, ?_, ?_, ?_⟩
  · intro hip
    unfold noDecideEntries
    intro j k e hj
    rcases hcache j with hc | ⟨k', e', hke, hres⟩
    · rw [hc] at hj
      exact h1 (by rw [hstate] at hip; exact hip) j k e hj
    · rw [hres] at hj
      obtain ⟨-, he⟩ : k' = k ∧ { e' with state := EntryState.PENDING } = e := by
        simpa [Prod.ext_iff] using hj
      rw [← he]
      simp
  · intro hd
    rw [hstatus]
    exact h2 (by rw [hstate] at hd; exact hd)
  · intro hd
    rw [hdec]
    exact h3 (by rw [← hstate]; exact hd)
  · intro hd hok
    rw [hdec]
    exact h4 (by rw [← hstate]; exact hd) (by rw [← hstatus]; exact hok)
  · rw [hcount, hstate]
    exact h5

/-- Every reachable task state satisfies the invariant. -/
theorem reachable_inv (t : Task) (ht : Reachable t) : Inv t := by
  induction ht with
  | init cache hs => exact inv_mkTask cache
  | step l ht ih =>
    cases l with
    | perform env => exact inv_performTask env _ ih
    | prepFail i =>
      obtain ⟨a, b, c, d, e⟩ := prepTransportFail_fields i _
      exact inv_of_fields _ _ a b c d e ih
    | prepResp i st vote =>
      obtain ⟨a, b, c, d, e⟩ := prepDeliver_fields i st vote _
      exact inv_of_fields _ _ a b c d e ih
    | decFail i =>
      obtain ⟨a, b, c, d, e⟩ := decTransportFail_fields i _
      exact inv_of_fields _ _ a b c d e ih
    | decResp i st =>
      obtain ⟨a, b, c, d, e⟩ := decDeliver_fields i st _
      exact inv_of_fields _ _ a b c d e ih

/-- Position-wise comparison of two caches: every entry of the second cache
sits at the same key as in the first, with an entry state at least as far
along `PENDING → PREPARE → DECIDE`. -/
def cacheRankLe (ca cb : List (CacheKey × CacheEntry)) : Prop :=
  ∀ (j : Nat) (k : CacheKey) (eb : CacheEntry), cb[j]? = some (k, eb) →
    ∃ ea : CacheEntry, ca[j]? = some (k, ea) ∧
      entryRank ea.state ≤ entryRank eb.state

/-- Rank comparison is reflexive. -/
theorem cacheRankLe_refl (c : List (CacheKey × CacheEntry)) : cacheRankLe c c :=
  fun _ k e' hj => ⟨e', hj, le_rfl⟩

/-- Rank comparison is transitive. -/
theorem cacheRankLe_trans {a b c : List (CacheKey × CacheEntry)}
    (hab : cacheRankLe a b) (hbc : cacheRankLe b c) : cacheRankLe a c := by
  intro j k e' hj
  obtain ⟨e1, h1, hle1⟩ := hbc j k e' hj
  obtain ⟨e0, h0, hle0⟩ := hab j k e1 h1
  exact ⟨e0, h0, le_trans hle0 hle1⟩

/-- The cache written by the `INIT` block, position-wise. -/
theorem initPhase_cacheGet (env : Env) (t : Task) (j : Nat)
    (hs : t.state = .INIT) :
    (initPhase env t).commitCache[j]? =
      (t.commitCache[j]?).map (fun ke =>
        (ke.1, { ke.2 with rpcId := (env.newTxId + j) % U64 })) := by
  simp only [initPhase, if_pos hs]
  exact initTask_cacheGet env t j

/-- The `INIT` block never moves an entry state. -/
theorem initPhase_rank (env : Env) (t : Task) :
    cacheRankLe t.commitCache (initPhase env t).commitCache := by
  by_cases hs : t.state = .INIT
  · intro j k e' hj
    rw [initPhase_cacheGet env t j hs] at hj
    cases hc : t.commitCache[j]? with
    | none => rw [hc] at hj; cases hj
    | some ke =>
      rw [hc] at hj
      simp only [Option.map_some'] at hj
      obtain ⟨k0, e0⟩ := ke
      obtain ⟨hk, he⟩ : k0 = k ∧
          { e0 with rpcId := (env.newTxId + j) % U64 } = e' := by
        simpa [Prod.ext_iff] using hj
      subst hk
      exact ⟨e0, rfl, le_of_eq (by rw [← he])⟩
  · have hid : initPhase env t = t := by simp [initPhase, hs]
    rw [hid]
    exact cacheRankLe_refl _

/-- `sendPrepareRpc` never moves an entry state backwards when no entry has
reached `DECIDE`. -/
theorem sendPrepareRpc_rank (env : Env) (t : Task) (hnd : noDecideEntries t) :
    cacheRankLe t.commitCache (sendPrepareRpc env t).commitCache := by
  intro j k e' hj
  rcases sendPrepareRpc_cacheGet env t j with hc | ⟨k0, e0, hke, hres⟩
  · rw [hc] at hj
    exact ⟨e', hj, le_rfl⟩
  · rw [hres] at hj
    obtain ⟨hk, he⟩ : k0 = k ∧ { e0 with state := EntryState.PREPARE } = e' := by
      simpa [Prod.ext_iff] using hj
    subst hk
    refine ⟨e0, hke, ?_⟩
    rw [← he]
    have hd := hnd j k0 e0 hke
    cases hstate : e0.state with
    | PENDING => simp [entryRank]
    | PREPARE => simp [entryRank]
    | DECIDE => exact absurd hstate hd

/-- `sendDecisionRpc` never moves an entry state backwards. -/
theorem sendDecisionRpc_rank (env : Env) (t : Task) :
    cacheRankLe t.commitCache (sendDecisionRpc env t).commitCache := by
  intro j k e' hj
  rcases sendDecisionRpc_cacheGet env t j with hc | ⟨k0, e0, hke, hres⟩
  · rw [hc] at hj
    exact ⟨e', hj, le_rfl⟩
  · rw [hres] at hj
    obtain ⟨hk, he⟩ : k0 = k ∧ { e0 with state := EntryState.DECIDE } = e' := by
      simpa [Prod.ext_iff] using hj
    subst hk
    refine ⟨e0, hke, ?_⟩
    rw [← he]
    cases e0.state <;> simp [entryRank]

/-- The `PREPARE` phase transition check does not touch the cache. -/
theorem prepareTransition_cache (t : Task) :
    (prepareTransition t).commitCache = t.commitCache := by
  unfold prepareTransition
  split <;> rfl

/-- The `DECISION` phase transition check does not touch the cache. -/
theorem decisionTransition_cache (t : Task) :
    (decisionTransition t).commitCache = t.commitCache := by
  unfold decisionTransition
  split <;> rfl

/-- A `PREPARE`-block throw leaves the cache untouched. -/
theorem preparePhase_err_cache (env : Env) (t u : Task) (st : Status)
    (herr : preparePhase env t = .error (u, st)) :
    u.commitCache = t.commitCache := by
  unfold preparePhase at herr
  by_cases hs : t.state = .PREPARE
  · rw [if_pos hs] at herr
    cases hq : processPrepareRpcs t with
    | ok t1 => rw [hq] at herr; cases herr
    | error es =>
      rw [hq] at herr
      obtain rfl : es = (u, st) := by cases herr; rfl
      exact (processPrepareRpcs_error t u st hq).2.2.1
  · rw [if_neg hs] at herr
    cases herr

/-- A `DECISION`-block throw leaves the cache untouched. -/
theorem decisionPhase_err_cache (env : Env) (t u : Task) (st : Status)
    (herr : decisionPhase env t = .error (u, st)) :
    u.commitCache = t.commitCache := by
  unfold decisionPhase at herr
  by_cases hs : t.state = .DECISION
  · rw [if_pos hs] at herr
    cases hq : processDecisionRpcs t with
    | ok t1 => rw [hq] at herr; cases herr
    | error es =>
      rw [hq] at herr
      obtain rfl : es = (u, st) := by cases herr; rfl
      exact (processDecisionRpcs_error t u st hq).2.2.1
  · rw [if_neg hs] at herr
    cases herr

/-- The `PREPARE` block never moves an entry state backwards. -/
theorem preparePhase_rank (env : Env) (t u : Task) (h : Inv t)
    (hok : preparePhase env t = .ok u) :
    cacheRankLe t.commitCache u.commitCache := by
  unfold preparePhase at hok
  by_cases hs : t.state = .PREPARE
  · rw [if_pos hs] at hok
    cases hq : processPrepareRpcs t with
    | error es => rw [hq] at hok; cases hok
    | ok t1 =>
      rw [hq] at hok
      obtain rfl : prepareTransition (sendPrepareRpc env t1) = u := by
        cases hok
        rfl
      have hc1 : t1.commitCache = t.commitCache :=
        (processPrepareRpcs_ok t t1 hq).2.2.1
      have hnd : noDecideEntries t1 := by
        unfold noDecideEntries
        intro j k e hj
        rw [hc1] at hj
        exact h.1 (Or.inr hs) j k e hj
      have hr := sendPrepareRpc_rank env t1 hnd
      intro j k e' hj
      rw [prepareTransition_cache] at hj
      obtain ⟨e0, h0, hle⟩ := hr j k e' hj
      rw [hc1] at h0
      exact ⟨e0, h0, hle⟩
  · rw [if_neg hs] at hok
    obtain rfl : t = u := by cases hok; rfl
    exact cacheRankLe_refl _

/-- The `DECISION` block never moves an entry state backwards. -/
theorem decisionPhase_rank (env : Env) (t u : Task)
    (hok : decisionPhase env t = .ok u) :
    cacheRankLe t.commitCache u.commitCache := by
  unfold decisionPhase at hok
  by_cases hs : t.state = .DECISION
  · rw [if_pos hs] at hok
    cases hq : processDecisionRpcs t with
    | error es => rw [hq] at hok; cases hok
    | ok t1 =>
      rw [hq] at hok
      obtain rfl : decisionTransition (sendDecisionRpc env t1) = u := by
        cases hok
        rfl
      have hc1 : t1.commitCache = t.commitCache :=
        (processDecisionRpcs_ok t t1 hq).2.2.1
      have hr := sendDecisionRpc_rank env t1
      intro j k e' hj
      rw [decisionTransition_cache] at hj
      obtain ⟨e0, h0, hle⟩ := hr j k e' hj
      rw [hc1] at h0
      exact ⟨e0, h0, hle⟩
  · rw [if_neg hs] at hok
    obtain rfl : t = u := by cases hok; rfl
    exact cacheRankLe_refl _

/-- One `performTask` call never moves any entry state backwards. -/
theorem performTask_rank_mono (env : Env) (t : Task) (h : Inv t) :
    cacheRankLe t.commitCache (performTask env t).commitCache := by
  have hi := inv_initPhase env t h
  have r0 := initPhase_rank env t
  cases hp : preparePhase env (initPhase env t) with
  | error es =>
    rw [performTask_eq_err1 env t es hp]
    have hcache : (fatalError es.1 es.2).commitCache =
        (initPhase env t).commitCache := by
      have := preparePhase_err_cache env (initPhase env t) es.1 es.2 (by rw [hp])
      simpa [fatalError] using this
    intro j k e' hj
    rw [hcache] at hj
    exact r0 j k e' hj
  | ok t1 =>
    have r1 := preparePhase_rank env (initPhase env t) t1 hi hp
    rw [performTask_eq_ok env t t1 hp]
    cases hd : decisionPhase env t1 with
    | error es =>
      show cacheRankLe t.commitCache (fatalError es.1 es.2).commitCache
      have hcache : (fatalError es.1 es.2).commitCache = t1.commitCache := by
        have := decisionPhase_err_cache env t1 es.1 es.2 (by rw [hd])
        simpa [fatalError] using this
      intro j k e' hj
      rw [hcache] at hj
      exact cacheRankLe_trans r0 r1 j k e' hj
    | ok t2 =>
      show cacheRankLe t.commitCache t2.commitCache
      exact cacheRankLe_trans (cacheRankLe_trans r0 r1)
        (decisionPhase_rank env t1 t2 hd)

/-- Accumulator invariant of the prepare scan: once an RPC is under
construction the scan keeps its session, and it only appends positions of
suffix entries whose looked-up locator matches that session, staying within
the `opCount` bound. -/
theorem sendPrepareScan_acc (env : Env) (l : List (CacheKey × CacheEntry)) :
    ∀ (i : Nat) (loc : Locator) (ops : List Nat),
      ops.length ≤ env.maxObjectsPerPrepareRpc →
      ∃ ops2, (sendPrepareScan env l i (some (loc, ops))).2.2 = some (loc, ops2) ∧
        ops2.length ≤ env.maxObjectsPerPrepareRpc ∧
        ∀ j ∈ ops2, j ∈ ops ∨ ∃ m ke, l[m]? = some ke ∧ j = i + m ∧
          env.lookup ke.1.tableId ke.1.keyHash = loc := by
  induction l with
  | nil =>
    intro i loc ops hlen
    exact ⟨ops, rfl, hlen, fun j hj => .inl hj⟩
  | cons ke rest ih =>
    intro i loc ops hlen
    by_cases h1 : ke.2.state = .PREPARE
    · simp only [sendPrepareScan, if_pos h1]
      obtain ⟨ops2, ha, hb, hc⟩ := ih (i + 1) loc ops hlen
      refine ⟨ops2, by simpa using ha, hb, ?_⟩
      intro j hj
      rcases hc j hj with hj2 | ⟨m, ke2, hm, hjm, hlk⟩
      · exact .inl hj2
      · exact .inr ⟨m + 1, ke2, by simpa using hm, by omega, hlk⟩
    · simp only [sendPrepareScan, if_neg h1, Option.getD_some]
      split
      next hcond =>
        obtain ⟨hloc, hltmax⟩ := hcond
        obtain ⟨ops2, ha, hb, hc⟩ := ih (i + 1) loc (ops ++ [i])
          (by simpa using hltmax)
        refine ⟨ops2, by simpa using ha, hb, ?_⟩
        intro j hj
        rcases hc j hj with hj2 | ⟨m, ke2, hm, hjm, hlk⟩
        · rcases List.mem_append.mp hj2 with hja | hjb
          · exact .inl hja
          · have hji : j = i := by simpa using hjb
            exact .inr ⟨0, ke, by simp, by omega, by simpa using hloc⟩
        · exact .inr ⟨m + 1, ke2, by simpa using hm, by omega, hlk⟩
      next hcond =>
        exact ⟨ops, rfl, hlen, fun j hj => .inl hj⟩

/-- The prepare scan starting with no RPC under construction: if it opens
an RPC, the RPC's ops stay within the bound and every appended position
holds an entry whose looked-up locator equals the session the RPC was
opened on. -/
theorem sendPrepareScan_none (env : Env) (l : List (CacheKey × CacheEntry)) :
    ∀ i : Nat, (sendPrepareScan env l i none).2.2 = none ∨
      ∃ loc ops2, (sendPrepareScan env l i none).2.2 = some (loc, ops2) ∧
        ops2.length ≤ env.maxObjectsPerPrepareRpc ∧
        ∀ j ∈ ops2, ∃ m ke, l[m]? = some ke ∧ j = i + m ∧
          env.lookup ke.1.tableId ke.1.keyHash = loc := by
  induction l with
  | nil =>
    intro i
    exact .inl rfl
  | cons ke rest ih =>
    intro i
    by_cases h1 : ke.2.state = .PREPARE
    · simp only [sendPrepareScan, if_pos h1]
      rcases ih (i + 1) with hnone | ⟨loc, ops2, ha, hb, hc⟩
      · exact .inl (by simpa using hnone)
      · right
        refine ⟨loc, ops2, by simpa using ha, hb, ?_⟩
        intro j hj
        obtain ⟨m, ke2, hm, hjm, hlk⟩ := hc j hj
        exact ⟨m + 1, ke2, by simpa using hm, by omega, hlk⟩
    · simp only [sendPrepareScan, if_neg h1, Option.getD_none]
      split
      next hcond =>
        right
        have hmax : 1 ≤ env.maxObjectsPerPrepareRpc := by
          have := hcond.2
          simpa using this
        obtain ⟨ops2, ha, hb, hc⟩ := sendPrepareScan_acc env rest (i + 1)
          (env.lookup ke.1.tableId ke.1.keyHash) ([] ++ [i]) (by simpa using hmax)
        refine ⟨env.lookup ke.1.tableId ke.1.keyHash, ops2, by simpa using ha,
          hb, ?_⟩
        intro j hj
        rcases hc j hj with hj2 | ⟨m, ke2, hm, hjm, hlk⟩
        · have hji : j = i := by simpa using hj2
          exact ⟨0, ke, by simp, by omega, rfl⟩
        · exact ⟨m + 1, ke2, by simpa using hm, by omega, hlk⟩
      next hcond =>
        right
        exact ⟨env.lookup ke.1.tableId ke.1.keyHash, [], rfl, by simp, by simp⟩

/-- Accumulator invariant of the decision scan. -/
theorem sendDecisionScan_acc (env : Env) (l : List (CacheKey × CacheEntry)) :
    ∀ (i : Nat) (loc : Locator) (ops : List Nat),
      ops.length ≤ env.maxObjectsPerDecisionRpc →
      ∃ ops2, (sendDecisionScan env l i (some (loc, ops))).2.2 = some (loc, ops2) ∧
        ops2.length ≤ env.maxObjectsPerDecisionRpc ∧
        ∀ j ∈ ops2, j ∈ ops ∨ ∃ m ke, l[m]? = some ke ∧ j = i + m ∧
          env.lookup ke.1.tableId ke.1.keyHash = loc := by
  induction l with
  | nil =>
    intro i loc ops hlen
    exact ⟨ops, rfl, hlen, fun j hj => .inl hj⟩
  | cons ke rest ih =>
    intro i loc ops hlen
    by_cases h1 : ke.2.state = .DECIDE
    · simp only [sendDecisionScan, if_pos h1]
      obtain ⟨ops2, ha, hb, hc⟩ := ih (i + 1) loc ops hlen
      refine ⟨ops2, by simpa using ha, hb, ?_⟩
      intro j hj
      rcases hc j hj with hj2 | ⟨m, ke2, hm, hjm, hlk⟩
      · exact .inl hj2
      · exact .inr ⟨m + 1, ke2, by simpa using hm, by omega, hlk⟩
    · simp only [sendDecisionScan, if_neg h1, Option.getD_some]
      split
      next hcond =>
        obtain ⟨hloc, hltmax⟩ := hcond
        obtain ⟨ops2, ha, hb, hc⟩ := ih (i + 1) loc (ops ++ [i])
          (by simpa using hltmax)
        refine ⟨ops2, by simpa using ha, hb, ?_⟩
        intro j hj
        rcases hc j hj with hj2 | ⟨m, ke2, hm, hjm, hlk⟩
        · rcases List.mem_append.mp hj2 with hja | hjb
          · exact .inl hja
          · have hji : j = i := by simpa using hjb
            exact .inr ⟨0, ke, by simp, by omega, by simpa using hloc⟩
        · exact .inr ⟨m + 1, ke2, by simpa using hm, by omega, hlk⟩
      next hcond =>
        exact ⟨ops, rfl, hlen, fun j hj => .inl hj⟩

/-- The decision scan starting with no RPC under construction. -/
theorem sendDecisionScan_none (env : Env) (l : List (CacheKey × CacheEntry)) :
    ∀ i : Nat, (sendDecisionScan env l i none).2.2 = none ∨
      ∃ loc ops2, (sendDecisionScan env l i none).2.2 = some (loc, ops2) ∧
        ops2.length ≤ env.maxObjectsPerDecisionRpc ∧
        ∀ j ∈ ops2, ∃ m ke, l[m]? = some ke ∧ j = i + m ∧
          env.lookup ke.1.tableId ke.1.keyHash = loc := by
  induction l with
  | nil =>
    intro i
    exact .inl rfl
  | cons ke rest ih =>
    intro i
    by_cases h1 : ke.2.state = .DECIDE
    · simp only [sendDecisionScan, if_pos h1]
      rcases ih (i + 1) with hnone | ⟨loc, ops2, ha, hb, hc⟩
      · exact .inl (by simpa using hnone)
      · right
        refine ⟨loc, ops2, by simpa using ha, hb, ?_⟩
        intro j hj
        obtain ⟨m, ke2, hm, hjm, hlk⟩ := hc j hj
        exact ⟨m + 1, ke2, by simpa using hm, by omega, hlk⟩
    · simp only [sendDecisionScan, if_neg h1, Option.getD_none]
      split
      next hcond =>
        right
        have hmax : 1 ≤ env.maxObjectsPerDecisionRpc := by
          have := hcond.2
          simpa using this
        obtain ⟨ops2, ha, hb, hc⟩ := sendDecisionScan_acc env rest (i + 1)
          (env.lookup ke.1.tableId ke.1.keyHash) ([] ++ [i]) (by simpa using hmax)
        refine ⟨env.lookup ke.1.tableId ke.1.keyHash, ops2, by simpa using ha,
          hb, ?_⟩
        intro j hj
        rcases hc j hj with hj2 | ⟨m, ke2, hm, hjm, hlk⟩
        · have hji : j = i := by simpa using hj2
          exact ⟨0, ke, by simp, by omega, rfl⟩
        · exact ⟨m + 1, ke2, by simpa using hm, by omega, hlk⟩
      next hcond =>
        right
        exact ⟨env.lookup ke.1.tableId ke.1.keyHash, [], rfl, by simp, by simp⟩

/-- The `INIT` block does not touch `decision`. -/
theorem initPhase_decision (env : Env) (t : Task) :
    (initPhase env t).decision = t.decision := by
  by_cases hs : t.state = .INIT
  · simp only [initPhase, if_pos hs]
    exact (initTask_fields env t).2.2.1
  · simp [initPhase, hs]

/-- The `PREPARE` transition check keeps an `ABORT` decision. -/
theorem prepareTransition_abort (t : Task) (h : t.decision = .ABORT) :
    (prepareTransition t).decision = .ABORT := by
  unfold prepareTransition
  split
  · simp [h]
  · exact h

/-- The `DECISION` transition check does not touch `decision`. -/
theorem decisionTransition_decision (t : Task) :
    (decisionTransition t).decision = t.decision := by
  unfold decisionTransition
  split <;> rfl

/-- Once `decision = ABORT`, a whole `performTask` call keeps it `ABORT`. -/
theorem performTask_abort_sticky (env : Env) (t : Task)
    (h : t.decision = .ABORT) : (performTask env t).decision = .ABORT := by
  have h0 : (initPhase env t).decision = .ABORT := by
    rw [initPhase_decision]
    exact h
  cases hp : preparePhase env (initPhase env t) with
  | error es =>
    rw [performTask_eq_err1 env t es hp]
    show es.1.decision = .ABORT
    unfold preparePhase at hp
    by_cases hs : (initPhase env t).state = .PREPARE
    · rw [if_pos hs] at hp
      cases hq : processPrepareRpcs (initPhase env t) with
      | ok t1 => rw [hq] at hp; cases hp
      | error es2 =>
        rw [hq] at hp
        obtain rfl : es2 = es := by cases hp; rfl
        obtain ⟨-, -, -, -, -, -, -, -, -, -, hdec, -⟩ :=
          processPrepareRpcs_error _ es2.1 es2.2 (by rw [hq])
        rcases hdec with hdec | hdec
        · rw [hdec, h0]
        · exact hdec
    · rw [if_neg hs] at hp
      cases hp
  | ok t1 =>
    have h1 : t1.decision = .ABORT := by
      unfold preparePhase at hp
      by_cases hs : (initPhase env t).state = .PREPARE
      · rw [if_pos hs] at hp
        cases hq : processPrepareRpcs (initPhase env t) with
        | error es => rw [hq] at hp; cases hp
        | ok t1' =>
          rw [hq] at hp
          obtain rfl : prepareTransition (sendPrepareRpc env t1') = t1 := by
            cases hp
            rfl
          obtain ⟨-, -, -, -, -, -, -, -, -, -, hdec⟩ :=
            processPrepareRpcs_ok _ t1' hq
          have habort1 : t1'.decision = .ABORT := by
            rcases hdec with hdec | hdec
            · rw [hdec, h0]
            · exact hdec
          apply prepareTransition_abort
          rw [(sendPrepareRpc_fields env t1').2.2.1]
          exact habort1
      · rw [if_neg hs] at hp
        obtain rfl : initPhase env t = t1 := by cases hp; rfl
        exact h0
    rw [performTask_eq_ok env t t1 hp]
    cases hd : decisionPhase env t1 with
    | error es =>
      show es.1.decision = .ABORT
      unfold decisionPhase at hd
      by_cases hs : t1.state = .DECISION
      · rw [if_pos hs] at hd
        cases hq : processDecisionRpcs t1 with
        | ok t2 => rw [hq] at hd; cases hd
        | error es2 =>
          rw [hq] at hd
          obtain rfl : es2 = es := by cases hd; rfl
          obtain ⟨-, -, -, -, -, -, -, -, -, -, hdec, -⟩ :=
            processDecisionRpcs_error _ es2.1 es2.2 (by rw [hq])
          rw [hdec, h1]
      · rw [if_neg hs] at hd
        cases hd
    | ok t2 =>
      show t2.decision = .ABORT
      unfold decisionPhase at hd
      by_cases hs : t1.state = .DECISION
      · rw [if_pos hs] at hd
        cases hq : processDecisionRpcs t1 with
        | error es => rw [hq] at hd; cases hd
        | ok t1' =>
          rw [hq] at hd
          obtain rfl : decisionTransition (sendDecisionRpc env t1') = t2 := by
            cases hd
            rfl
          rw [decisionTransition_decision, (sendDecisionRpc_fields env t1').2.2.1,
            (processDecisionRpcs_ok _ t1' hq).2.2.2.2.2.2.2.2.2.2, h1]
      · rw [if_neg hs] at hd
        obtain rfl : t1 = t2 := by cases hd; rfl
        exact h1

/-- A concrete environment for the concrete runs below: every key maps to
the session with locator 7, both RPC bounds are 4, and the tracker hands
out the block starting at 100. -/
def envC : Env :=
  { lookup := fun _ _ => 7, maxObjectsPerPrepareRpc := 4,
    maxObjectsPerDecisionRpc := 4, newTxId := 100 }

/-- A one-entry staged cache. -/
def cacheC1 : List (CacheKey × OpType) :=
  [({ tableId := 1, keyHash := 1 }, .WRITE)]

/-- The one-entry task after its first `performTask` call: in `PREPARE`
with one in-flight prepare RPC carrying the single entry. -/
def tC1 : Task := step (.perform envC) (mkTask cacheC1)

/-- C1 counterexample: in the reachable state `tC1` the single entry has
`state = PREPARE`; the transport-error callback on its in-flight prepare
RPC (`handleTransportError`, i.e. `retryRequest`) moves it back to
`PENDING`, so the entry state does not only ever advance. -/
theorem c1_counterexample :
    Reachable tC1 ∧
    entryStateAt tC1 0 = some .PREPARE ∧
    entryStateAt (step (.prepFail 0) tC1) 0 = some .PENDING ∧
    ¬entryRank EntryState.PREPARE ≤ entryRank EntryState.PENDING :=
  ⟨Reachable.step (.perform envC) (Reachable.init cacheC1 (by decide)),
    by decide, by decide, by decide⟩

/-- C1 (amended): along `performTask` calls every cache entry's state is
monotone along `PENDING → PREPARE → DECIDE`; only the transport-error /
`UNKNOWN_TABLET` retry path (`retryRequest`) moves states backwards, by
resetting the RPC's entries to `PENDING`. -/
theorem c1_state_monotone (t : Task) (ht : Reachable t) (env : Env) (j : Nat)
    (k : CacheKey) (e2 : CacheEntry)
    (hj : (performTask env t).commitCache[j]? = some (k, e2)) :
    ∃ e1, t.commitCache[j]? = some (k, e1) ∧
      entryRank e1.state ≤ entryRank e2.state :=
  performTask_rank_mono env t (reachable_inv t ht) j k e2 hj

/-- Witness for the amended C1 at the concrete one-entry run. -/
theorem c1_state_monotone_witness :
    ∃ e1, (mkTask cacheC1).commitCache[0]? =
        some ({ tableId := 1, keyHash := 1 }, e1) ∧
      entryRank e1.state ≤ entryRank
        ({ type := .WRITE, rpcId := 100, state := .PREPARE } : CacheEntry).state :=
  c1_state_monotone (mkTask cacheC1) (Reachable.init cacheC1 (by decide)) envC 0
    { tableId := 1, keyHash := 1 }
    { type := .WRITE, rpcId := 100, state := .PREPARE } (by decide)

/-- The run refuting C2: prepare succeeds with a `COMMIT` vote, the task
moves to `DECISION` with `decision = COMMIT`, and the decision RPC comes
back with a fatal status, so `performTask` stops via the `catch` path. -/
def tC2 : Task :=
  step (.perform envC)
    (step (.decResp 0 (.other 5))
      (step (.perform envC)
        (step (.prepResp 0 .OK .COMMIT) tC1)))

/-- C2 counterexample: the run `tC2` ends at `DONE` with
`status = STATUS 5 ≠ OK` while `decision = COMMIT`, so
`decision ∈ {COMMIT, ABORT}` at `DONE` does not imply `status = OK`. -/
theorem c2_counterexample :
    Reachable tC2 ∧ tC2.state = .DONE ∧ ¬tC2.status = .OK ∧
    (tC2.decision = .COMMIT ∨ tC2.decision = .ABORT) :=
  ⟨Reachable.step (.perform envC) (Reachable.step (.decResp 0 (.other 5))
      (Reachable.step (.perform envC) (Reachable.step (.prepResp 0 .OK .COMMIT)
        (Reachable.step (.perform envC) (Reachable.init cacheC1 (by decide)))))),
    by decide, by decide, by decide⟩

/-- C2 (amended): the forward direction holds — every reachable `DONE`
state with `status = OK` has `decision ∈ {COMMIT, ABORT}`.  The converse
fails (see the counterexample): a fatal error during the decision phase
reaches `DONE` with `status ≠ OK` and `decision` already finalized. -/
theorem c2_done_ok_decision (t : Task) (ht : Reachable t)
    (hdone : t.state = .DONE) (hok : t.status = .OK) :
    t.decision = .COMMIT ∨ t.decision = .ABORT :=
  (reachable_inv t ht).2.2.2.1 hdone hok

/-- The empty-cache one-call run used as a witness. -/
def tC2w : Task := step (.perform envC) (mkTask [])

/-- Witness for the amended C2 at a concrete completed run. -/
theorem c2_done_ok_decision_witness :
    tC2w.decision = .COMMIT ∨ tC2w.decision = .ABORT :=
  c2_done_ok_decision tC2w
    (Reachable.step (.perform envC) (Reachable.init [] (by decide)))
    (by decide) (by decide)

/-- C3: in a `performTask` call entered with `state = PREPARE` whose
`processPrepareRpcs` does not throw, the `PREPARE` block is exactly
`prepareTransition (sendPrepareRpc env ...)`; the task transitions to
`DECISION` iff, after the process and send steps, the prepare pipeline is
empty and the cursor has reached the end of the commit cache; at that
transition `decision` is set to `COMMIT` unless it is already `ABORT`, and
the cursor is reset to the head of the cache. -/
theorem c3_prepare_transition (env : Env) (t t1 : Task)
    (hstate : t.state = .PREPARE) (hok : processPrepareRpcs t = .ok t1) :
    preparePhase env t = .ok (prepareTransition (sendPrepareRpc env t1)) ∧
    ((prepareTransition (sendPrepareRpc env t1)).state = .DECISION ↔
      ((sendPrepareRpc env t1).prepareRpcs = [] ∧
        (sendPrepareRpc env t1).nextCacheEntry =
          (sendPrepareRpc env t1).commitCache.length)) ∧
    (((sendPrepareRpc env t1).prepareRpcs = [] ∧
        (sendPrepareRpc env t1).nextCacheEntry =
          (sendPrepareRpc env t1).commitCache.length) →
      (prepareTransition (sendPrepareRpc env t1)).decision =
        (if (sendPrepareRpc env t1).decision = .ABORT then .ABORT
          else .COMMIT) ∧
      (prepareTransition (sendPrepareRpc env t1)).nextCacheEntry = 0) := by
  refine ⟨?_, ?_, ?_⟩
  · unfold preparePhase
    rw [if_pos hstate, hok]
  · have hst2 : (sendPrepareRpc env t1).state = .PREPARE := by
      rw [(sendPrepareRpc_fields env t1).1, (processPrepareRpcs_ok t t1 hok).1,
        hstate]
    constructor
    · intro hd
      by_contra hcond
      rw [show prepareTransition (sendPrepareRpc env t1) = sendPrepareRpc env t1
          from by unfold prepareTransition; rw [if_neg hcond]] at hd
      rw [hst2] at hd
      cases hd
    · intro hcond
      unfold prepareTransition
      rw [if_pos hcond]
  · intro hcond
    unfold prepareTransition
    rw [if_pos hcond]
    refine ⟨?_, rfl⟩
    by_cases hab : (sendPrepareRpc env t1).decision = .ABORT
    · simp [hab]
    · simp [hab]

/-- Witness for C3 at the concrete in-flight one-entry task. -/
theorem c3_prepare_transition_witness :
    preparePhase envC tC1 = .ok (prepareTransition (sendPrepareRpc envC tC1)) ∧
    ((prepareTransition (sendPrepareRpc envC tC1)).state = .DECISION ↔
      ((sendPrepareRpc envC tC1).prepareRpcs = [] ∧
        (sendPrepareRpc envC tC1).nextCacheEntry =
          (sendPrepareRpc envC tC1).commitCache.length)) ∧
    (((sendPrepareRpc envC tC1).prepareRpcs = [] ∧
        (sendPrepareRpc envC tC1).nextCacheEntry =
          (sendPrepareRpc envC tC1).commitCache.length) →
      (prepareTransition (sendPrepareRpc envC tC1)).decision =
        (if (sendPrepareRpc envC tC1).decision = .ABORT then .ABORT
          else .COMMIT) ∧
      (prepareTransition (sendPrepareRpc envC tC1)).nextCacheEntry = 0) :=
  c3_prepare_transition envC tC1 tC1 (by decide) (by rfl)

/-- A task with `decision` already `ABORT`, used by the C4 witness. -/
def tAbort : Task := { mkTask [] with decision := .ABORT }

/-- C4: `decision` starts `INVALID` at construction; handling a prepare
response with status `OK` and a vote other than `COMMIT` sets it to
`ABORT`; and once `ABORT` it stays `ABORT` across every step of the
transition system (`performTask` calls and transport callbacks alike). -/
theorem c4_abort_sticky (cache : List (CacheKey × OpType)) (dec : TxDecision)
    (vote : TxDecision) (hv : vote ≠ .COMMIT) (l : StepLabel) (t : Task)
    (habort : t.decision = .ABORT) :
    (mkTask cache).decision = .INVALID ∧
    (prepareRpcEffect (.response .OK vote) dec).1 = .ABORT ∧
    (step l t).decision = .ABORT := by
  refine ⟨rfl, by simp [prepareRpcEffect, hv], ?_⟩
  cases l with
  | perform env => exact performTask_abort_sticky env t habort
  | prepFail i =>
    show (prepTransportFail i t).decision = .ABORT
    rw [(prepTransportFail_fields i t).2.2.1]
    exact habort
  | prepResp i st vote2 =>
    show (prepDeliver i st vote2 t).decision = .ABORT
    rw [(prepDeliver_fields i st vote2 t).2.2.1]
    exact habort
  | decFail i =>
    show (decTransportFail i t).decision = .ABORT
    rw [(decTransportFail_fields i t).2.2.1]
    exact habort
  | decResp i st =>
    show (decDeliver i st t).decision = .ABORT
    rw [(decDeliver_fields i st t).2.2.1]
    exact habort

/-- Witness for C4 at concrete inputs. -/
theorem c4_abort_sticky_witness :
    (mkTask []).decision = .INVALID ∧
    (prepareRpcEffect (.response .OK .ABORT) .INVALID).1 = .ABORT ∧
    (step (.perform envC) tAbort).decision = .ABORT :=
  c4_abort_sticky [] .INVALID .ABORT (by decide) (.perform envC) tAbort rfl

/-- C5: a freshly sent prepare RPC (the one `sendPrepareRpc` appends to the
pipeline) carries at most `MAX_OBJECTS_PER_RPC` ops, and every cache entry
appended to it was looked up to a session whose service locator equals that
of the session the RPC was opened on; likewise for a freshly sent decision
RPC and its participants. -/
theorem c5_rpc_bounds (env : Env) (t : Task) (r : Rpc)
    (hnew : (sendPrepareRpc env t).prepareRpcs = t.prepareRpcs ++ [r])
    (j : Nat) (hj : j ∈ r.ops)
    (envd : Env) (td : Task) (rd : Rpc)
    (hnewd : (sendDecisionRpc envd td).decisionRpcs = td.decisionRpcs ++ [rd])
    (jd : Nat) (hjd : jd ∈ rd.ops) :
    (r.ops.length ≤ env.maxObjectsPerPrepareRpc ∧
      ∃ ke, t.commitCache[j]? = some ke ∧
        env.lookup ke.1.tableId ke.1.keyHash = r.sessionLoc) ∧
    (rd.ops.length ≤ envd.maxObjectsPerDecisionRpc ∧
      ∃ ke, td.commitCache[jd]? = some ke ∧
        envd.lookup ke.1.tableId ke.1.keyHash = rd.sessionLoc) := by
  constructor
  · cases hscan : (sendPrepareScan env (t.commitCache.drop t.nextCacheEntry)
        t.nextCacheEntry none).2.2 with
    | none =>
      exfalso
      have : (sendPrepareRpc env t).prepareRpcs = t.prepareRpcs := by
        simp [sendPrepareRpc, hscan]
      rw [this] at hnew
      have hlen := congrArg List.length hnew
      simp at hlen
    | some locOps =>
      have hlist : (sendPrepareRpc env t).prepareRpcs = t.prepareRpcs ++
          [{ sessionLoc := locOps.1, ops := locOps.2, outcome := .notReady }] := by
        simp [sendPrepareRpc, hscan]
      rw [hlist] at hnew
      have hr : Rpc.mk locOps.1 locOps.2 .notReady = r := by
        have h2 := List.append_cancel_left hnew
        simpa using h2
      rcases sendPrepareScan_none env (t.commitCache.drop t.nextCacheEntry)
          t.nextCacheEntry with hnone | ⟨loc, ops2, ha, hb, hc⟩
      · rw [hscan] at hnone
        cases hnone
      · rw [hscan] at ha
        obtain rfl : locOps = (loc, ops2) := by
          injection ha
        have hrops : r.ops = ops2 := by rw [← hr]
        have hrloc : r.sessionLoc = loc := by rw [← hr]
        constructor
        · rw [hrops]
          exact hb
        · obtain ⟨m, ke, hm, hjm, hlk⟩ := hc j (by rw [← hrops]; exact hj)
          refine ⟨ke, ?_, by rw [hrloc]; exact hlk⟩
          rw [List.getElem?_drop] at hm
          rw [hjm]
          exact hm
  · cases hscan : (sendDecisionScan envd (td.commitCache.drop td.nextCacheEntry)
        td.nextCacheEntry none).2.2 with
    | none =>
      exfalso
      have : (sendDecisionRpc envd td).decisionRpcs = td.decisionRpcs := by
        simp [sendDecisionRpc, hscan]
      rw [this] at hnewd
      have hlen := congrArg List.length hnewd
      simp at hlen
    | some locOps =>
      have hlist : (sendDecisionRpc envd td).decisionRpcs = td.decisionRpcs ++
          [{ sessionLoc := locOps.1, ops := locOps.2, outcome := .notReady }] := by
        simp [sendDecisionRpc, hscan]
      rw [hlist] at hnewd
      have hr : Rpc.mk locOps.1 locOps.2 .notReady = rd := by
        have h2 := List.append_cancel_left hnewd
        simpa using h2
      rcases sendDecisionScan_none envd (td.commitCache.drop td.nextCacheEntry)
          td.nextCacheEntry with hnone | ⟨loc, ops2, ha, hb, hc⟩
      · rw [hscan] at hnone
        cases hnone
      · rw [hscan] at ha
        obtain rfl : locOps = (loc, ops2) := by
          injection ha
        have hrops : rd.ops = ops2 := by rw [← hr]
        have hrloc : rd.sessionLoc = loc := by rw [← hr]
        constructor
        · rw [hrops]
          exact hb
        · obtain ⟨m, ke, hm, hjm, hlk⟩ := hc jd (by rw [← hrops]; exact hjd)
          refine ⟨ke, ?_, by rw [hrloc]; exact hlk⟩
          rw [List.getElem?_drop] at hm
          rw [hjm]
          exact hm

/-- The RPC freshly sent by the concrete one-entry runs. -/
def rpcC5 : Rpc := { sessionLoc := 7, ops := [0], outcome := .notReady }

/-- Witness for C5 at the concrete one-entry task. -/
theorem c5_rpc_bounds_witness :
    (rpcC5.ops.length ≤ envC.maxObjectsPerPrepareRpc ∧
      ∃ ke, (mkTask cacheC1).commitCache[0]? = some ke ∧
        envC.lookup ke.1.tableId ke.1.keyHash = rpcC5.sessionLoc) ∧
    (rpcC5.ops.length ≤ envC.maxObjectsPerDecisionRpc ∧
      ∃ ke, (mkTask cacheC1).commitCache[0]? = some ke ∧
        envC.lookup ke.1.tableId ke.1.keyHash = rpcC5.sessionLoc) :=
  c5_rpc_bounds envC (mkTask cacheC1) rpcC5 (by decide) 0 (by decide)
    envC (mkTask cacheC1) rpcC5 (by decide) 0 (by decide)

/-- C6: handling a transport error on an in-flight prepare RPC resets
exactly the RPC's entries to `PENDING` (all their other fields kept),
flushes their tables' routing entries (one `objectFinder.flush` per op, in
op order), rewinds the cursor to the cache head, and leaves every other
cache entry — and the task's state, status, decision and decision
pipeline — unchanged. -/
theorem c6_transport_error_frame (t : Task) (i : Nat) (r : Rpc)
    (hr : t.prepareRpcs[i]? = some r) (hin : r.outcome = .notReady)
    (j1 : Nat) (hj1 : j1 ∈ r.ops) (k1 : CacheKey) (e1 : CacheEntry)
    (hk1 : t.commitCache[j1]? = some (k1, e1))
    (j2 : Nat) (hj2 : j2 ∉ r.ops) :
    (prepTransportFail i t).commitCache[j1]? =
      some (k1, { e1 with state := .PENDING }) ∧
    (prepTransportFail i t).commitCache[j2]? = t.commitCache[j2]? ∧
    (prepTransportFail i t).nextCacheEntry = 0 ∧
    (prepTransportFail i t).flushedTables =
      t.flushedTables ++ r.ops.filterMap
        (fun j => (t.commitCache[j]?).map (fun ke => ke.1.tableId)) ∧
    (prepTransportFail i t).state = t.state ∧
    (prepTransportFail i t).status = t.status ∧
    (prepTransportFail i t).decision = t.decision ∧
    (prepTransportFail i t).decisionRpcs = t.decisionRpcs := by
  have hred : prepTransportFail i t =
      { retryRequest r t with
          prepareRpcs := (retryRequest r t).prepareRpcs.set i
            { r with outcome := .failed } } := by
    simp [prepTransportFail, hr, hin]
  rw [hred]
  refine ⟨?_, ?_, ?_, ?_, ?_, ?_, ?_, ?_⟩
  · show (retryRequest r t).commitCache[j1]? = _
    rw [retryRequest_cacheGet, if_pos hj1, hk1]
    rfl
  · show (retryRequest r t).commitCache[j2]? = _
    rw [retryRequest_cacheGet, if_neg hj2]
  · exact (retryRequest_fields r t).2.2.2.2.2.2.2.2.2
  · exact retryRequest_flushes r t
  · exact (retryRequest_fields r t).1
  · exact (retryRequest_fields r t).2.1
  · exact (retryRequest_fields r t).2.2.1
  · exact (retryRequest_fields r t).2.2.2.2.2.2.2.1

/-- Witness for C6 at the concrete in-flight one-entry task. -/
theorem c6_transport_error_frame_witness :
    (prepTransportFail 0 tC1).commitCache[0]? =
      some ({ tableId := 1, keyHash := 1 },
        { type := .WRITE, rpcId := 100, state := EntryState.PENDING }) ∧
    (prepTransportFail 0 tC1).commitCache[5]? = tC1.commitCache[5]? ∧
    (prepTransportFail 0 tC1).nextCacheEntry = 0 ∧
    (prepTransportFail 0 tC1).flushedTables =
      tC1.flushedTables ++ rpcC5.ops.filterMap
        (fun j => (tC1.commitCache[j]?).map (fun ke => ke.1.tableId)) ∧
    (prepTransportFail 0 tC1).state = tC1.state ∧
    (prepTransportFail 0 tC1).status = tC1.status ∧
    (prepTransportFail 0 tC1).decision = tC1.decision ∧
    (prepTransportFail 0 tC1).decisionRpcs = tC1.decisionRpcs :=
  c6_transport_error_frame tC1 0 rpcC5 (by decide) (by decide) 0 (by decide)
    { tableId := 1, keyHash := 1 }
    { type := .WRITE, rpcId := 100, state := .PREPARE } (by decide)
    5 (by decide)

/-- C7: on every reachable state, `rpcTracker.rpcFinished(txId)` has been
called exactly once iff the task is at `DONE` (and never before), so over
any run the call happens exactly once, at the transition to `DONE`; and the
fatal-error path clears both pipelines, records the thrown status, and
notifies the tracker before entering `DONE`. -/
theorem c7_rpcFinished_once (t : Task) (ht : Reachable t) (u : Task)
    (st : Status) :
    t.rpcFinishedCount = (if t.state = .DONE then 1 else 0) ∧
    (fatalError u st).prepareRpcs = [] ∧
    (fatalError u st).decisionRpcs = [] ∧
    (fatalError u st).status = st ∧
    (fatalError u st).state = .DONE ∧
    (fatalError u st).rpcFinishedCount = u.rpcFinishedCount + 1 :=
  ⟨(reachable_inv t ht).2.2.2.2, rfl, rfl, rfl, rfl, rfl⟩

/-- Witness for C7 at concrete inputs. -/
theorem c7_rpcFinished_once_witness :
    tC2w.rpcFinishedCount = (if tC2w.state = .DONE then 1 else 0) ∧
    (fatalError (mkTask []) (.other 3)).prepareRpcs = [] ∧
    (fatalError (mkTask []) (.other 3)).decisionRpcs = [] ∧
    (fatalError (mkTask []) (.other 3)).status = .other 3 ∧
    (fatalError (mkTask []) (.other 3)).state = .DONE ∧
    (fatalError (mkTask []) (.other 3)).rpcFinishedCount =
      (mkTask []).rpcFinishedCount + 1 :=
  c7_rpcFinished_once tC2w
    (Reachable.step (.perform envC) (Reachable.init [] (by decide)))
    (mkTask []) (.other 3)

/-- C8: after `initTask` on a freshly built task whose cache has `n`
entries (with `n` in `uint32_t` range, as any `commitCache.size()` is),
every position `m` in cache (key) order has `rpcId = txId + m` (`uint64_t`
arithmetic), the participant list holds exactly `n` records carrying each
entry's `(tableId, keyHash, rpcId)` in the same order,
`participantCount = n`, and the `rpcId`s assigned to any two distinct
positions differ. -/
theorem c8_initTask (env : Env) (t : Task) (m m2 : Nat)
    (hpl : t.participantList = []) (hpc : t.participantCount = 0)
    (hn32 : t.commitCache.length < U32) (hn64 : t.commitCache.length ≤ U64) :
    (initTask env t).commitCache[m]? =
      (t.commitCache[m]?).map (fun ke =>
        (ke.1, { ke.2 with rpcId := (env.newTxId + m) % U64 })) ∧
    (initTask env t).participantList[m]? =
      (t.commitCache[m]?).map (fun ke =>
        { tableId := ke.1.tableId, keyHash := ke.1.keyHash,
          rpcId := (env.newTxId + m) % U64 }) ∧
    (initTask env t).participantList.length = t.commitCache.length ∧
    (initTask env t).participantCount = t.commitCache.length ∧
    (m < m2 → m2 < t.commitCache.length →
      ((initTask env t).commitCache[m]?).map (fun ke => ke.2.rpcId) ≠
        ((initTask env t).commitCache[m2]?).map (fun ke => ke.2.rpcId)) := by
  refine ⟨initTask_cacheGet env t m, ?_, ?_, ?_, ?_⟩
  · simp only [initTask, hpl, List.nil_append]
    rw [initTaskLoop_snd_get]
    simp
  · simp only [initTask, hpl, List.nil_append]
    rw [initTaskLoop_snd_length]
  · simp only [initTask]
    rw [initTaskLoop_count env.newTxId t.commitCache 0 t.participantCount
      (by rw [hpc]; norm_num [U32])]
    rw [hpc, Nat.zero_add, Nat.mod_eq_of_lt hn32]
  · intro hm hm2
    have hmlt : m < t.commitCache.length := lt_trans hm hm2
    rw [initTask_cacheGet env t m, initTask_cacheGet env t m2]
    cases hcm : t.commitCache[m]? with
    | none =>
      rw [List.getElem?_eq_none_iff] at hcm
      omega
    | some km =>
      cases hcm2 : t.commitCache[m2]? with
      | none =>
        rw [List.getElem?_eq_none_iff] at hcm2
        omega
      | some km2 =>
        simp only [Option.map_some']
        intro heq
        have hmods : (env.newTxId + m) % U64 = (env.newTxId + m2) % U64 := by
          simpa using heq
        have hmod : m % U64 = m2 % U64 :=
          Nat.ModEq.add_left_cancel' env.newTxId hmods
        rw [Nat.mod_eq_of_lt (by omega), Nat.mod_eq_of_lt (by omega)] at hmod
        omega

/-- A sorted two-entry staged cache used by the C8 witness. -/
def cacheC8 : List (CacheKey × OpType) :=
  [({ tableId := 1, keyHash := 1 }, .WRITE), ({ tableId := 2, keyHash := 3 }, .READ)]

/-- Witness for C8 at the concrete two-entry task. -/
theorem c8_initTask_witness :
    (initTask envC (mkTask cacheC8)).commitCache[0]? =
      ((mkTask cacheC8).commitCache[0]?).map (fun ke =>
        (ke.1, { ke.2 with rpcId := (envC.newTxId + 0) % U64 })) ∧
    (initTask envC (mkTask cacheC8)).participantList[0]? =
      ((mkTask cacheC8).commitCache[0]?).map (fun ke =>
        { tableId := ke.1.tableId, keyHash := ke.1.keyHash,
          rpcId := (envC.newTxId + 0) % U64 }) ∧
    (initTask envC (mkTask cacheC8)).participantList.length =
      (mkTask cacheC8).commitCache.length ∧
    (initTask envC (mkTask cacheC8)).participantCount =
      (mkTask cacheC8).commitCache.length ∧
    (0 < 1 → 1 < (mkTask cacheC8).commitCache.length →
      ((initTask envC (mkTask cacheC8)).commitCache[0]?).map
          (fun ke => ke.2.rpcId) ≠
        ((initTask envC (mkTask cacheC8)).commitCache[1]?).map
          (fun ke => ke.2.rpcId)) :=
  c8_initTask envC (mkTask cacheC8) 0 1 rfl rfl (by norm_num [mkTask, cacheC8, U32])
    (by norm_num [mkTask, cacheC8, U64])

/-- A ready prepare RPC voting `COMMIT` for entry 0. -/
def rpcC9a : Rpc := { sessionLoc := 0, ops := [0], outcome := .response .OK .COMMIT }

/-- A ready prepare RPC voting `COMMIT` for entry 1. -/
def rpcC9b : Rpc := { sessionLoc := 0, ops := [1], outcome := .response .OK .COMMIT }

/-- A not-yet-ready RPC for entry 2. -/
def rpcC9c : Rpc := { sessionLoc := 0, ops := [2], outcome := .notReady }

/-- C9 counterexample: on the pending list `[rpcC9a, rpcC9b, rpcC9c]` with
the first two RPCs ready, one traversal erases `rpcC9a`, then the
`erase`-then-`it++` iteration skips `rpcC9b`, so the ready `rpcC9b` is
still in the list at the end of the call — the call does not remove every
RPC that was ready at its start (same for the decision loop). -/
theorem c9_counterexample :
    (processPrepareLoop [rpcC9a, rpcC9b, rpcC9c] .INVALID).1 =
      [rpcC9b, rpcC9c] ∧
    ¬rpcC9b.outcome = .notReady ∧
    (processDecisionLoop [rpcC9a, rpcC9b, rpcC9c]).1 = [rpcC9b, rpcC9c] := by
  decide

/-- C9 (amended): a single call to `processPrepareRpcs` (resp.
`processDecisionRpcs`) removes only ready RPCs — every not-yet-ready RPC
survives, and the remaining list is a sublist of the original — but because
the `it = erase(it)` result is incremented again by the loop header, the
RPC immediately following an erased one is skipped, so a ready RPC may
survive the call (it is handled by a later call). -/
theorem c9_process_removes_ready (l : List Rpc) (dec : TxDecision) :
    (processPrepareLoop l dec).1.Sublist l ∧
    (l.filter (fun r => decide (r.outcome = RpcOutcome.notReady))).Sublist
      (processPrepareLoop l dec).1 ∧
    (processDecisionLoop l).1.Sublist l ∧
    (l.filter (fun r => decide (r.outcome = RpcOutcome.notReady))).Sublist
      (processDecisionLoop l).1 :=
  ⟨processPrepareLoop_sublist l dec, processPrepareLoop_notReady_sublist l dec,
    processDecisionLoop_sublist l, processDecisionLoop_notReady_sublist l⟩

/-- C10: with an empty commit cache, a single `performTask` call on a
freshly constructed task runs `INIT`, `PREPARE` and `DECISION` to
completion: it ends at `DONE` with `status = OK` and `decision = COMMIT`,
both pipelines stay empty (since `status = OK`, the `catch` path never ran,
so no prepare or decision RPC was ever created), and
`rpcTracker.rpcFinished(txId)` was called exactly once. -/
theorem c10_empty_cache_one_call (env : Env) :
    (performTask env (mkTask [])).state = .DONE ∧
    (performTask env (mkTask [])).status = .OK ∧
    (performTask env (mkTask [])).decision = .COMMIT ∧
    (performTask env (mkTask [])).prepareRpcs = [] ∧
    (performTask env (mkTask [])).decisionRpcs = [] ∧
    (performTask env (mkTask [])).rpcFinishedCount = 1 :=
  ⟨rfl, rfl, rfl, rfl, rfl, rfl⟩

end ClientTransactionTask
